import Mathlib

/-!
Verification model of the ValoHub backend.

The repository holds two variants of the same Express server:
`src/server.js` and the unnamed file `src/unnamed/part_000`.  Both keep a
forward index `db.wishlist : Map<anonUserId, {region, items}>` and a
reverse index `db.skinSubscriptions : Map<skinId, Set<"uid:region:source">>`.

Modelling choices, uniform for both variants:
* JavaScript strings are `Str := List Char`; template literals are list
  concatenation; `String.prototype.split(":")` is `jsSplit`.
* JS `Map`s are association lists in insertion order (`mapGet`, `mapSet`,
  `mapDelete`); JS `Set`s are duplicate-free lists in insertion order
  (`setAdd`, `setDelete`).
* A request field that can be JS `undefined` is an `Option`; in particular
  `item.skinId` is `Option Str` because the `part_000` add route stores the
  body's `skinId` without validating its presence.
* Timestamp fields (`createdAt`, `updatedAt`, `addedAt`) carry no logical
  content for any claim and are omitted from the record types.

Namespace `Valo.P0` models `src/unnamed/part_000`; namespace `Valo.SJ`
models `src/server.js` where the two differ.
-/

abbrev Str : Type := List Char

/-- Interpret a Lean string literal as a modelled JS string. -/
def str (s : String) : Str := s.data

/-- `Map.get`: the value stored at the first pair whose key is `k`. -/
def mapGet {α β : Type} [DecidableEq α] : List (α × β) → α → Option β
  | [], _ => none
  | p :: m, k => if p.1 = k then some p.2 else mapGet m k

/-- `Map.set`: replace the binding of `k` in place, else append it. -/
def mapSet {α β : Type} [DecidableEq α] : List (α × β) → α → β → List (α × β)
  | [], k, v => [(k, v)]
  | p :: m, k, v => if p.1 = k then (k, v) :: m else p :: mapSet m k v

/-- `Map.delete`: drop every binding of `k`. -/
def mapDelete {α β : Type} [DecidableEq α] : List (α × β) → α → List (α × β)
  | [], _ => []
  | p :: m, k => if p.1 = k then mapDelete m k else p :: mapDelete m k

/-- `Set.add`: append the element unless already present. -/
def setAdd {α : Type} [DecidableEq α] (s : List α) (x : α) : List α :=
  if x ∈ s then s else s ++ [x]

/-- `Set.delete`: remove the element. -/
def setDelete {α : Type} [DecidableEq α] (s : List α) (x : α) : List α :=
  s.filter (fun y => decide (y ≠ x))

/-- `String.prototype.split(sep)` for a one-character separator. -/
def splitAux (sep : Char) : List Char → List Char → List Str
  | [], acc => [acc.reverse]
  | c :: rest, acc =>
    if c = sep then acc.reverse :: splitAux sep rest []
    else splitAux sep rest (c :: acc)

def jsSplit (s : Str) (sep : Char) : List Str := splitAux sep s []

namespace Valo

/-- `db.regions` (identical in both files). -/
def regions : List Str :=
  [str "TR", str "EU", str "NA", str "AP", str "KR", str "BR", str "LATAM"]

/-- `validSources` from the `part_000` add route. -/
def validSources : List Str := [str "store", str "night", str "bundle"]

/-- `String.prototype.toUpperCase` on the region strings in play. -/
def jsUpper (s : Str) : Str := s.map Char.toUpper

/-- `x || dflt` for a possibly-`undefined` JS string: `undefined` and the
empty string are falsy. -/
def jsOr (x : Option Str) (dflt : Str) : Str :=
  match x with
  | none => dflt
  | some s => if s = [] then dflt else s

/-- `normalizeRegion`: `(region || 'EU').toUpperCase()`, then membership
check against `db.regions`, defaulting to `'EU'`. -/
def normalizeRegion (region : Option Str) : Str :=
  if jsUpper (jsOr region (str "EU")) ∈ regions then jsUpper (jsOr region (str "EU"))
  else str "EU"

/-- `generateTopicName(region, source, skinId)`:
`valohub/${region}/${source}/${skinId}`. -/
def generateTopicName (region source skinId : Str) : Str :=
  str "valohub/" ++ region ++ ['/'] ++ source ++ ['/'] ++ skinId

/-- How a JS template literal renders a possibly-`undefined` string. -/
def renderOpt : Option Str → Str
  | some s => s
  | none => str "undefined"

/-- The composite reverse-index key `${uid}:${region}:${source}`. -/
def subKey (uid region source : Str) : Str :=
  uid ++ ':' :: (region ++ ':' :: source)

/-- A wishlist item (the `addedAt` timestamp is omitted). -/
structure Item where
  skinId : Option Str
  skinName : Str
  source : Str
  deriving DecidableEq, Repr

/-- One user's record (timestamps omitted). -/
structure UserData where
  region : Str
  items : List Item
  deriving DecidableEq, Repr

/-- The whole in-memory store `db`. -/
structure Db where
  wishlist : List (Str × UserData)
  skinSubscriptions : List (Option Str × List Str)
  deriving DecidableEq, Repr

/-- The empty store at process start. -/
def Db.empty : Db := ⟨[], []⟩

/-- The reverse-index bucket for a given skin key (empty if absent). -/
def SubAt (db : Db) (k : Option Str) : List Str :=
  (mapGet db.skinSubscriptions k).getD []

/-- The item filter of both delete routes:
`!(item.skinId === skinId && item.source === source)`. -/
def keepItem (skinId : Str) (src : Str) (i : Item) : Bool :=
  !(decide (i.skinId = some skinId) && decide (i.source = src))

/-- The reverse-index update shared by both delete routes: look up the
bucket for the path `skinId`, delete the composite key from it, and drop
the bucket from the map when it became empty
(`if (subs.size === 0) db.skinSubscriptions.delete(skinId)`). -/
def subsRemove (subs : List (Option Str × List Str)) (skinId : Str) (key : Str) :
    List (Option Str × List Str) :=
  match mapGet subs (some skinId) with
  | none => subs
  | some b =>
    let b' := setDelete b key
    if b' = [] then mapDelete subs (some skinId)
    else mapSet subs (some skinId) b'

namespace P0

/-!  Model of `src/unnamed/part_000`. -/

/-- Outcome of `POST /api/user/register`. -/
def register (db : Db) (uid : Str) (region : Option Str) : Str × Db :=
  let r := normalizeRegion region
  (r, { db with wishlist := mapSet db.wishlist uid ⟨r, []⟩ })

inductive RegionResult where
  | notFound
  | ok (region : Str)
  deriving DecidableEq, Repr

/-- Net effect on the reverse index of the per-item body of the region
update loop: delete the old composite key from the bucket (when the bucket
exists), make sure the bucket exists, then add the new composite key.  The
JS mutations amount to rewriting the bucket for `i.skinId` to
`setAdd (setDelete old) new` over the previous bucket (`[]` if absent). -/
def relocateItem (uid oldR newR : Str) (subs : List (Option Str × List Str)) (i : Item) :
    List (Option Str × List Str) :=
  let b := (mapGet subs i.skinId).getD []
  mapSet subs i.skinId
    (setAdd (setDelete b (subKey uid oldR i.source)) (subKey uid newR i.source))

/-- `PUT /api/user/:anonUserId/region`. -/
def setRegion (db : Db) (uid : Str) (region : Option Str) : RegionResult × Db :=
  match mapGet db.wishlist uid with
  | none => (.notFound, db)
  | some u =>
    let newR := normalizeRegion region
    (.ok newR,
      { wishlist := mapSet db.wishlist uid { u with region := newR },
        skinSubscriptions := u.items.foldl (relocateItem uid u.region newR) db.skinSubscriptions })

/-- The add route's source normalization: exact membership in
`validSources`, else `'store'`; the destructuring default `'store'` covers
an absent field. -/
def normalizeSource (source : Option Str) : Str :=
  if source.getD (str "store") ∈ validSources then source.getD (str "store")
  else str "store"

inductive AddResult where
  | already (topic : Str)
  | added (item : Item) (topic : Str)
  deriving DecidableEq, Repr

/-- `POST /api/wishlist/:anonUserId` of `part_000`.  Note: the route never
validates that `skinId` is present, so the raw `Option Str` flows into the
item, the reverse-index bucket key and (stringified) the topic. -/
def addItem (db : Db) (uid : Str) (skinId : Option Str) (skinName source : Option Str) :
    AddResult × Db :=
  let nsrc := normalizeSource source
  match mapGet db.wishlist uid with
  | some u =>
    if u.items.any (fun i => decide (i.skinId = skinId) && decide (i.source = nsrc)) then
      (.already (generateTopicName u.region nsrc (renderOpt skinId)), db)
    else
      let newItem : Item := ⟨skinId, jsOr skinName (str "Unknown Skin"), nsrc⟩
      (.added newItem (generateTopicName u.region nsrc (renderOpt skinId)),
        { wishlist := mapSet db.wishlist uid { u with items := u.items ++ [newItem] },
          skinSubscriptions :=
            mapSet db.skinSubscriptions skinId
              (setAdd (SubAt db skinId) (subKey uid u.region nsrc)) })
  | none =>
    let u : UserData := ⟨str "EU", []⟩
    let newItem : Item := ⟨skinId, jsOr skinName (str "Unknown Skin"), nsrc⟩
    (.added newItem (generateTopicName u.region nsrc (renderOpt skinId)),
      { wishlist := mapSet (mapSet db.wishlist uid u) uid { u with items := [newItem] },
        skinSubscriptions :=
          mapSet db.skinSubscriptions skinId
            (setAdd (SubAt db skinId) (subKey uid u.region nsrc)) })

inductive RemoveResult where
  | notFoundUser
  | notFoundItem
  | removed (unsubscribeTopic : Str)
  deriving DecidableEq, Repr

/-- `DELETE /api/wishlist/:anonUserId/:skinId` of `part_000`.  The query
source is taken raw (destructuring default `'store'`, no normalization);
if no item matched, the route answers `'Item not found in wishlist'`
before touching `updatedAt` or the reverse index (the filtered array it
assigned has the same elements). -/
def removeItem (db : Db) (uid skinId : Str) (source : Option Str) : RemoveResult × Db :=
  let src := source.getD (str "store")
  match mapGet db.wishlist uid with
  | none => (.notFoundUser, db)
  | some u =>
    let newItems := u.items.filter (keepItem skinId src)
    if newItems.length = u.items.length then
      (.notFoundItem, { db with wishlist := mapSet db.wishlist uid { u with items := newItems } })
    else
      (.removed (generateTopicName u.region src skinId),
        { wishlist := mapSet db.wishlist uid { u with items := newItems },
          skinSubscriptions :=
            subsRemove db.skinSubscriptions skinId (subKey uid u.region src) })

/-- The `{region, items, topics}` view of `GET /api/wishlist/:anonUserId`. -/
structure WishlistView where
  region : Str
  items : List Item
  topics : List Str
  deriving DecidableEq, Repr

def getWishlist (db : Db) (uid : Str) : WishlistView :=
  match mapGet db.wishlist uid with
  | none => ⟨str "EU", [], []⟩
  | some u =>
    ⟨u.region, u.items,
      u.items.map (fun i => generateTopicName u.region i.source (renderOpt i.skinId))⟩

/-- One parsed record of `GET /api/internal/subscriptions/:skinId`:
`sub.split(':')` destructured as `[anonUserId, region, source]` (missing
components are `undefined`), and the topic recomputed from the parsed
components. -/
structure SubRecord where
  anonUserId : Option Str
  region : Option Str
  source : Option Str
  topic : Str
  deriving DecidableEq, Repr

def subRecordOf (skinId : Str) (e : Str) : SubRecord :=
  let parts := jsSplit e ':'
  { anonUserId := parts.get? 0, region := parts.get? 1, source := parts.get? 2,
    topic := generateTopicName (renderOpt (parts.get? 1)) (renderOpt (parts.get? 2)) skinId }

/-- `GET /api/internal/subscriptions/:skinId` (worker query by skin). -/
def queryBySkin (db : Db) (skinId : Str) : List SubRecord :=
  match mapGet db.skinSubscriptions (some skinId) with
  | none => []
  | some b => if b = [] then [] else b.map (subRecordOf skinId)

/-- The filter test of the active-skins route:
`(!source || itemSource === source)` on the parsed third component. -/
def activePass (filt : Option Str) (parts : List Str) : Bool :=
  match filt with
  | none => true
  | some f => if f = [] then true else decide (parts.get? 2 = some f)

/-- Per-entry body of the active-skins aggregation loop: on a passing
entry, add the parsed region component to the per-skin set. -/
def activeStep (filt : Option Str) (k : Option Str)
    (acc : List (Option Str × List (Option Str))) (e : Str) :
    List (Option Str × List (Option Str)) :=
  let parts := jsSplit e ':'
  if activePass filt parts then
    mapSet acc k (setAdd ((mapGet acc k).getD []) (parts.get? 1))
  else acc

/-- `GET /api/internal/active-skins` of `part_000`: per skin, the set of
parsed region components of the entries passing the source filter. -/
def activeSkins (db : Db) (filt : Option Str) : List (Option Str × List (Option Str)) :=
  db.skinSubscriptions.foldl (fun acc p => p.2.foldl (activeStep filt p.1) acc) []

end P0

namespace SJ

/-!  Model of `src/server.js` where it differs from `part_000`. -/

inductive AddResult where
  | badRequest
  | ok (topic : Str)
  deriving DecidableEq, Repr

/-- `POST /api/wishlist/:anonUserId` of `server.js`: it validates that
`skinId` is truthy, but stores and indexes the client's raw `source`
without any normalization. -/
def addItem (db : Db) (uid : Str) (skinId : Option Str) (skinName source : Option Str) :
    AddResult × Db :=
  let src := source.getD (str "store")
  if (jsOr skinId []).isEmpty then (.badRequest, db)
  else
    match mapGet db.wishlist uid with
    | some u =>
      if u.items.any (fun i => decide (i.skinId = skinId) && decide (i.source = src)) then
        (.ok (generateTopicName u.region src (renderOpt skinId)), db)
      else
        let newItem : Item := ⟨skinId, jsOr skinName (str "Unknown"), src⟩
        (.ok (generateTopicName u.region src (renderOpt skinId)),
          { wishlist := mapSet db.wishlist uid { u with items := u.items ++ [newItem] },
            skinSubscriptions :=
              mapSet db.skinSubscriptions skinId
                (setAdd (SubAt db skinId) (subKey uid u.region src)) })
    | none =>
      let u : UserData := ⟨str "EU", []⟩
      let newItem : Item := ⟨skinId, jsOr skinName (str "Unknown"), src⟩
      (.ok (generateTopicName u.region src (renderOpt skinId)),
        { wishlist := mapSet (mapSet db.wishlist uid u) uid { u with items := [newItem] },
          skinSubscriptions :=
            mapSet db.skinSubscriptions skinId
              (setAdd (SubAt db skinId) (subKey uid u.region src)) })

/-- The per-item loop body of the `server.js` region update: when the
bucket for `item.skinId` is absent the item is skipped entirely
(`if (!set) return;`); otherwise the old key is deleted and the new one
added. -/
def relocateItem (uid oldR newR : Str) (subs : List (Option Str × List Str)) (i : Item) :
    List (Option Str × List Str) :=
  match mapGet subs i.skinId with
  | none => subs
  | some b =>
    mapSet subs i.skinId
      (setAdd (setDelete b (subKey uid oldR i.source)) (subKey uid newR i.source))

/-- `PUT /api/user/:anonUserId/region` of `server.js`. -/
def setRegion (db : Db) (uid : Str) (region : Option Str) : P0.RegionResult × Db :=
  match mapGet db.wishlist uid with
  | none => (.notFound, db)
  | some u =>
    let newR := normalizeRegion region
    (.ok newR,
      { wishlist := mapSet db.wishlist uid { u with region := newR },
        skinSubscriptions := u.items.foldl (relocateItem uid u.region newR) db.skinSubscriptions })

inductive RemoveResult where
  | notFoundUser
  | ok
  deriving DecidableEq, Repr

/-- `DELETE /api/wishlist/:anonUserId/:skinId` of `server.js`: the items
array is filtered and the reverse-index bucket is touched whether or not
anything matched, and the response is the bare `{success: true}` in every
non-404 case.  `req.query.source || "store"` treats the empty string as
absent. -/
def removeItem (db : Db) (uid skinId : Str) (source : Option Str) : RemoveResult × Db :=
  let src := jsOr source (str "store")
  match mapGet db.wishlist uid with
  | none => (.notFoundUser, db)
  | some u =>
    let newItems := u.items.filter (keepItem skinId src)
    (.ok,
      { wishlist := mapSet db.wishlist uid { u with items := newItems },
        skinSubscriptions :=
          subsRemove db.skinSubscriptions skinId (subKey uid u.region src) })

/-- Per-entry body of the `server.js` active-skins loop: the parsed region
component is always added — the handler never reads `req.query.source`, so
the `filt` argument (the client's query parameter) is ignored. -/
def activeStep (k : Option Str) (acc : List (Option Str × List (Option Str)))
    (e : Str) : List (Option Str × List (Option Str)) :=
  mapSet acc k (setAdd ((mapGet acc k).getD []) ((jsSplit e ':').get? 1))

/-- `GET /api/internal/active-skins` of `server.js`: aggregates every
entry's parsed region, with no source filtering at all. -/
def activeSkins (db : Db) (_filt : Option Str) : List (Option Str × List (Option Str)) :=
  db.skinSubscriptions.foldl (fun acc p => p.2.foldl (activeStep p.1) acc) []

end SJ

/-! ### The store invariant tying the two indexes together -/

/-- Within one user's list, (skinId, source) pairs are pairwise distinct. -/
def itemsDistinct (l : List Item) : Prop :=
  l.Pairwise (fun a b => a.skinId ≠ b.skinId ∨ a.source ≠ b.source)

instance (l : List Item) : Decidable (itemsDistinct l) := by
  unfold itemsDistinct; infer_instance

/-- The entry `e` under bucket key `k` corresponds to a live (user, item)
pair of the store. -/
def validEntry (db : Db) (k : Option Str) (e : Str) : Prop :=
  ∃ p ∈ db.wishlist, ∃ i ∈ p.2.items, i.skinId = k ∧ e = subKey p.1 p.2.region i.source

instance (db : Db) (k : Option Str) (e : Str) : Decidable (validEntry db k e) := by
  unfold validEntry; infer_instance

/-- `e` under bucket key `k` is the entry of a live item of a user other
than `uid`. -/
def othersEntry (db : Db) (uid : Str) (k : Option Str) (e : Str) : Prop :=
  ∃ p ∈ db.wishlist, p.1 ≠ uid ∧
    ∃ i ∈ p.2.items, i.skinId = k ∧ e = subKey p.1 p.2.region i.source

/-- `e` under bucket key `k` is the entry user `uid` with region `reg`
owns for one of the items of `l`. -/
def ownEntry (uid reg : Str) (l : List Item) (k : Option Str) (e : Str) : Prop :=
  ∃ i ∈ l, i.skinId = k ∧ e = subKey uid reg i.source

/-- The global store invariant: regions and sources are normalized, item
pairs are unique per user, map keys and buckets are duplicate-free, every
live (user, item) pair has its entry in the right bucket (`complete`), and
every bucket entry corresponds to a live pair (`sound`). -/
def Inv (db : Db) : Prop :=
  (∀ p ∈ db.wishlist, p.2.region ∈ regions ∧
      (∀ i ∈ p.2.items, i.source ∈ validSources) ∧ itemsDistinct p.2.items) ∧
  (db.wishlist.map Prod.fst).Nodup ∧
  (db.skinSubscriptions.map Prod.fst).Nodup ∧
  (∀ q ∈ db.skinSubscriptions, q.2.Nodup) ∧
  (∀ p ∈ db.wishlist, ∀ i ∈ p.2.items,
      subKey p.1 p.2.region i.source ∈ SubAt db i.skinId) ∧
  (∀ q ∈ db.skinSubscriptions, ∀ e ∈ q.2, validEntry db q.1 e)

instance (db : Db) : Decidable (Inv db) := by
  unfold Inv; infer_instance

/-- The central invariant as stated by the spec: per live (user, item)
pair exactly one matching entry in the bucket for the item's skin id, and
no entry that fails to correspond to a live pair. -/
def CentralInvariant (db : Db) : Prop :=
  (∀ p ∈ db.wishlist, ∀ i ∈ p.2.items,
      (SubAt db i.skinId).countP
        (fun e => decide (e = subKey p.1 p.2.region i.source)) = 1) ∧
  (∀ q ∈ db.skinSubscriptions, ∀ e ∈ q.2, validEntry db q.1 e)

instance (db : Db) : Decidable (CentralInvariant db) := by
  unfold CentralInvariant; infer_instance

/-- The region a user currently resolves to (the `GET` route's default
`'EU'` view for an unknown user). -/
def userRegion (db : Db) (uid : Str) : Str :=
  match mapGet db.wishlist uid with
  | some u => u.region
  | none => str "EU"

/-- The topic carried by either `part_000` add response. -/
def P0.AddResult.topic : P0.AddResult → Str
  | .already t => t
  | .added _ t => t

/-- The stores reachable from the empty store through completed `part_000`
operations; `register` ids are freshly generated (collision-free per the
uuid-based generator), hence the freshness side condition. -/
inductive Reachable : Db → Prop where
  | init : Reachable Db.empty
  | register (db : Db) (uid : Str) (region : Option Str) :
      Reachable db → mapGet db.wishlist uid = none →
      Reachable (P0.register db uid region).2
  | setRegion (db : Db) (uid : Str) (region : Option Str) :
      Reachable db → Reachable (P0.setRegion db uid region).2
  | addItem (db : Db) (uid : Str) (skinId : Option Str) (nm src : Option Str) :
      Reachable db → Reachable (P0.addItem db uid skinId nm src).2
  | removeItem (db : Db) (uid skinId : Str) (src : Option Str) :
      Reachable db → Reachable (P0.removeItem db uid skinId src).2

/-- The store after a single auto-vivifying `part_000` add of skin `sk`
(default source) by user `u`: used as a small concrete test state. -/
def addOneDb : Db := (P0.addItem Db.empty (str "u") (some (str "sk")) none none).2

/-- A `server.js` store built by: add (skinId `S`, raw source `NA:store`)
for user `a`; add (`S`, `store`) for user `a:EU`; move user `a:EU` to
region `NA`.  The two composite keys now collide on the string
`a:EU:NA:store`, which the bucket (a set) stores once. -/
def sjCollideDb : Db :=
  (SJ.setRegion
    (SJ.addItem
      (SJ.addItem Db.empty (str "a") (some (str "S")) none (some (str "NA:store"))).2
      (str "a:EU") (some (str "S")) none (some (str "store"))).2
    (str "a:EU") (some (str "NA"))).2

/-- A `server.js` store where user `a` owns only (skinId `T`, `store`),
user `a:EU` (region `NA`) owns (`S`, `store`), and the bucket for `S`
holds exactly the key `a:EU:NA:store`. -/
def sjNoMatchDb : Db :=
  (SJ.setRegion
    (SJ.addItem
      (SJ.addItem Db.empty (str "a") (some (str "T")) none (some (str "store"))).2
      (str "a:EU") (some (str "S")) none (some (str "store"))).2
    (str "a:EU") (some (str "NA"))).2

end Valo

/-! ### Association-list map lemmas -/

section MapLemmas

variable {α β : Type} [DecidableEq α]

theorem mapGet_mapSet_self (m : List (α × β)) (k : α) (v : β) :
    mapGet (mapSet m k v) k = some v := by
  induction m with
  | nil => simp [mapGet, mapSet]
  | cons p m ih =>
    by_cases h : p.1 = k
    · simp [mapSet, h, mapGet]
    · simp [mapSet, h, mapGet, ih]

theorem mapGet_mapSet_ne (m : List (α × β)) {k k' : α} (v : β) (h : k' ≠ k) :
    mapGet (mapSet m k v) k' = mapGet m k' := by
  induction m with
  | nil => simp [mapGet, mapSet, Ne.symm h]
  | cons p m ih =>
    by_cases hp : p.1 = k
    · have hp' : ¬ p.1 = k' := by rw [hp]; exact Ne.symm h
      simp [mapSet, hp, mapGet, hp', Ne.symm h]
    · simp only [mapSet, if_neg hp, mapGet]
      by_cases hp' : p.1 = k'
      · simp [hp']
      · simp [hp', ih]

theorem mapGet_mapDelete_self (m : List (α × β)) (k : α) :
    mapGet (mapDelete m k) k = none := by
  induction m with
  | nil => simp [mapGet, mapDelete]
  | cons p m ih =>
    by_cases h : p.1 = k
    · simpa [mapDelete, h] using ih
    · simpa [mapDelete, h, mapGet] using ih

theorem mapGet_mapDelete_ne (m : List (α × β)) {k k' : α} (h : k' ≠ k) :
    mapGet (mapDelete m k) k' = mapGet m k' := by
  induction m with
  | nil => simp [mapDelete]
  | cons p m ih =>
    by_cases hp : p.1 = k
    · have hp' : ¬ p.1 = k' := by rw [hp]; exact Ne.symm h
      simp [mapDelete, hp, mapGet, hp', ih, Ne.symm h]
    · simp only [mapDelete, if_neg hp, mapGet]
      by_cases hp' : p.1 = k'
      · simp [hp']
      · simp [hp', ih]

theorem mapGet_eq_none_iff (m : List (α × β)) (k : α) :
    mapGet m k = none ↔ ∀ p ∈ m, p.1 ≠ k := by
  induction m with
  | nil => simp [mapGet]
  | cons p m ih =>
    by_cases h : p.1 = k
    · simp only [mapGet, if_pos h]
      constructor
      · intro hc; cases hc
      · intro hall
        exact absurd h (hall p (List.mem_cons_self p m))
    · simp only [mapGet, if_neg h, ih, List.mem_cons]
      constructor
      · intro hall q hq
        rcases hq with hq | hq
        · rw [hq]; exact h
        · exact hall q hq
      · intro hall q hq
        exact hall q (Or.inr hq)

theorem mapGet_mem {m : List (α × β)} {k : α} {v : β} (h : mapGet m k = some v) :
    (k, v) ∈ m := by
  induction m with
  | nil => simp [mapGet] at h
  | cons p m ih =>
    by_cases hp : p.1 = k
    · simp only [mapGet, if_pos hp, Option.some.injEq] at h
      have hkv : (k, v) = p := by
        calc (k, v) = (p.1, p.2) := by rw [hp, h]
          _ = p := rfl
      exact List.mem_cons.mpr (Or.inl hkv)
    · simp only [mapGet, if_neg hp] at h
      exact List.mem_cons_of_mem _ (ih h)

theorem mapSet_of_get_none {m : List (α × β)} {k : α} (v : β) (h : mapGet m k = none) :
    mapSet m k v = m ++ [(k, v)] := by
  induction m with
  | nil => simp [mapSet]
  | cons p m ih =>
    by_cases hp : p.1 = k
    · simp [mapGet, hp] at h
    · simp only [mapGet, if_neg hp] at h
      simp [mapSet, hp, ih h]

theorem mapSet_self {m : List (α × β)} {k : α} {v : β} (h : mapGet m k = some v) :
    mapSet m k v = m := by
  induction m with
  | nil => simp [mapGet] at h
  | cons p m ih =>
    by_cases hp : p.1 = k
    · simp only [mapGet, if_pos hp, Option.some.injEq] at h
      simp only [mapSet, if_pos hp]
      have hpe : (k, v) = p := by
        calc (k, v) = (p.1, p.2) := by rw [hp, h]
          _ = p := rfl
      rw [hpe]
    · simp only [mapGet, if_neg hp] at h
      simp [mapSet, hp, ih h]

theorem mapSet_mapSet (m : List (α × β)) (k : α) (v v' : β) :
    mapSet (mapSet m k v) k v' = mapSet m k v' := by
  induction m with
  | nil => simp [mapSet]
  | cons p m ih =>
    by_cases hp : p.1 = k
    · simp [mapSet, hp]
    · simp [mapSet, hp, ih]

theorem keys_mapSet_of_get_some {m : List (α × β)} {k : α} {v₀ : β}
    (h : mapGet m k = some v₀) (v : β) :
    (mapSet m k v).map Prod.fst = m.map Prod.fst := by
  induction m with
  | nil => simp [mapGet] at h
  | cons p m ih =>
    by_cases hp : p.1 = k
    · simp [mapSet, hp]
    · simp only [mapGet, if_neg hp] at h
      simp [mapSet, hp, ih h]

theorem mem_mapSet_weak {m : List (α × β)} {k : α} {v : β} {p : α × β}
    (h : p ∈ mapSet m k v) : p ∈ m ∨ p = (k, v) := by
  induction m with
  | nil =>
    simp only [mapSet, List.mem_singleton] at h
    exact Or.inr h
  | cons q m ih =>
    by_cases hq : q.1 = k
    · simp only [mapSet, if_pos hq, List.mem_cons] at h
      rcases h with h | h
      · right; exact h
      · left; exact List.mem_cons_of_mem _ h
    · simp only [mapSet, if_neg hq, List.mem_cons] at h
      rcases h with h | h
      · left; simp [h]
      · rcases ih h with h' | h'
        · left; exact List.mem_cons_of_mem _ h'
        · right; exact h'

theorem mem_mapSet_iff {m : List (α × β)} (hnd : (m.map Prod.fst).Nodup)
    {k : α} {v : β} {p : α × β} :
    p ∈ mapSet m k v ↔ (p ∈ m ∧ p.1 ≠ k) ∨ p = (k, v) := by
  induction m with
  | nil => simp [mapSet]
  | cons q m ih =>
    simp only [List.map_cons, List.nodup_cons] at hnd
    by_cases hq : q.1 = k
    · rw [mapSet, if_pos hq]
      simp only [List.mem_cons]
      constructor
      · rintro (h | h)
        · exact Or.inr h
        · have hne : p.1 ≠ k := fun hk =>
            hnd.1 (by rw [hq, ← hk]; exact List.mem_map_of_mem Prod.fst h)
          exact Or.inl ⟨Or.inr h, hne⟩
      · rintro (⟨hq' | hm, hne⟩ | h)
        · exact absurd (by rw [hq', hq]) hne
        · exact Or.inr hm
        · exact Or.inl h
    · rw [mapSet, if_neg hq]
      simp only [List.mem_cons, ih hnd.2]
      constructor
      · rintro (h | ⟨hm, hne⟩ | h)
        · exact Or.inl ⟨Or.inl h, by rw [h]; exact hq⟩
        · exact Or.inl ⟨Or.inr hm, hne⟩
        · exact Or.inr h
      · rintro (⟨hq' | hm, hne⟩ | h)
        · exact Or.inl hq'
        · exact Or.inr (Or.inl ⟨hm, hne⟩)
        · exact Or.inr (Or.inr h)

theorem mem_mapDelete {m : List (α × β)} {k : α} {p : α × β} :
    p ∈ mapDelete m k ↔ p ∈ m ∧ p.1 ≠ k := by
  induction m with
  | nil => simp [mapDelete]
  | cons q m ih =>
    by_cases hq : q.1 = k
    · rw [mapDelete, if_pos hq, ih]
      simp only [List.mem_cons]
      constructor
      · rintro ⟨hm, hne⟩; exact ⟨Or.inr hm, hne⟩
      · rintro ⟨hq' | hm, hne⟩
        · exact absurd (hq' ▸ hq) hne
        · exact ⟨hm, hne⟩
    · rw [mapDelete, if_neg hq]
      simp only [List.mem_cons, ih]
      constructor
      · rintro (he | ⟨hm, hne⟩)
        · exact ⟨Or.inl he, by rw [he]; exact hq⟩
        · exact ⟨Or.inr hm, hne⟩
      · rintro ⟨he | hm, hne⟩
        · exact Or.inl he
        · exact Or.inr ⟨hm, hne⟩

theorem mapGet_eq_of_mem_nodup {m : List (α × β)} (hnd : (m.map Prod.fst).Nodup)
    {p : α × β} (h : p ∈ m) : mapGet m p.1 = some p.2 := by
  induction m with
  | nil => simp at h
  | cons q m ih =>
    simp only [List.map_cons, List.nodup_cons] at hnd
    rcases List.mem_cons.mp h with h' | h'
    · subst h'
      simp [mapGet]
    · have hne : q.1 ≠ p.1 := by
        intro he
        exact hnd.1 (he ▸ List.mem_map_of_mem Prod.fst h')
      simp [mapGet, hne, ih hnd.2 h']

theorem pair_eq_of_mem_nodup {m : List (α × β)} (hnd : (m.map Prod.fst).Nodup)
    {p q : α × β} (hp : p ∈ m) (hq : q ∈ m) (h : p.1 = q.1) : p = q := by
  have h1 := mapGet_eq_of_mem_nodup hnd hp
  have h2 := mapGet_eq_of_mem_nodup hnd hq
  rw [h] at h1
  rw [h1] at h2
  calc p = (p.1, p.2) := rfl
    _ = (q.1, q.2) := by rw [h, (Option.some.injEq _ _).mp h2]
    _ = q := rfl

theorem keys_mapDelete_sublist (m : List (α × β)) (k : α) :
    ((mapDelete m k).map Prod.fst).Sublist (m.map Prod.fst) := by
  induction m with
  | nil => simp [mapDelete]
  | cons p m ih =>
    by_cases hp : p.1 = k
    · rw [mapDelete, if_pos hp, List.map_cons]
      exact ih.cons _
    · rw [mapDelete, if_neg hp, List.map_cons, List.map_cons]
      exact ih.cons₂ _

theorem mapDelete_sublist (m : List (α × β)) (k : α) : (mapDelete m k).Sublist m := by
  induction m with
  | nil => simp [mapDelete]
  | cons p m ih =>
    by_cases hp : p.1 = k
    · rw [mapDelete, if_pos hp]
      exact ih.cons _
    · rw [mapDelete, if_neg hp]
      exact ih.cons₂ _

end MapLemmas

/-! ### Set-as-list lemmas -/

section SetLemmas

variable {α : Type} [DecidableEq α]

theorem mem_setAdd {s : List α} {x y : α} : y ∈ setAdd s x ↔ y ∈ s ∨ y = x := by
  unfold setAdd
  by_cases h : x ∈ s
  · simp only [if_pos h]
    constructor
    · exact fun hy => Or.inl hy
    · rintro (hy | hy)
      · exact hy
      · exact hy ▸ h
  · simp [if_neg h]

theorem nodup_setAdd {s : List α} (h : s.Nodup) (x : α) : (setAdd s x).Nodup := by
  unfold setAdd
  by_cases hx : x ∈ s
  · simpa [if_pos hx]
  · simp only [if_neg hx]
    simpa [List.nodup_append] using ⟨h, hx⟩

theorem mem_setDelete {s : List α} {x y : α} : y ∈ setDelete s x ↔ y ∈ s ∧ y ≠ x := by
  simp [setDelete, List.mem_filter]

theorem nodup_setDelete {s : List α} (h : s.Nodup) (x : α) : (setDelete s x).Nodup :=
  List.Nodup.sublist (List.filter_sublist s) h

end SetLemmas

/-! ### Composite-key decomposition and `split(':')` lemmas -/

namespace Valo

theorem colon_append_inj {a1 a2 t1 t2 : Str} (h1 : ':' ∉ a1) (h2 : ':' ∉ a2)
    (h : a1 ++ ':' :: t1 = a2 ++ ':' :: t2) : a1 = a2 ∧ t1 = t2 := by
  induction a1 generalizing a2 with
  | nil =>
    cases a2 with
    | nil => simpa using h
    | cons c a2 =>
      simp only [List.nil_append, List.cons_append, List.cons.injEq] at h
      exact absurd (List.mem_cons.mpr (Or.inl h.1)) h2
  | cons c a1 ih =>
    cases a2 with
    | nil =>
      simp only [List.cons_append, List.nil_append, List.cons.injEq] at h
      exact absurd (List.mem_cons.mpr (Or.inl h.1.symm)) h1
    | cons c2 a2 =>
      simp only [List.cons_append, List.cons.injEq] at h
      have h1' : ':' ∉ a1 := fun hm => h1 (List.mem_cons_of_mem _ hm)
      have h2' : ':' ∉ a2 := fun hm => h2 (List.mem_cons_of_mem _ hm)
      obtain ⟨ha, ht⟩ := ih h1' h2' h.2
      exact ⟨by rw [h.1, ha], ht⟩

theorem subKey_reverse (u r s : Str) :
    (subKey u r s).reverse = s.reverse ++ ':' :: (r.reverse ++ ':' :: u.reverse) := by
  simp [subKey, List.reverse_append, List.reverse_cons, List.append_assoc]

/-- The composite key `uid:region:source` decomposes uniquely from the
right whenever the region and source components are colon-free (as the
enumerated regions and normalized sources are); the user id may itself
contain colons. -/
theorem subKey_inj {u1 r1 s1 u2 r2 s2 : Str}
    (hr1 : ':' ∉ r1) (hs1 : ':' ∉ s1) (hr2 : ':' ∉ r2) (hs2 : ':' ∉ s2)
    (h : subKey u1 r1 s1 = subKey u2 r2 s2) : u1 = u2 ∧ r1 = r2 ∧ s1 = s2 := by
  have hrev := congrArg List.reverse h
  rw [subKey_reverse, subKey_reverse] at hrev
  have hs1' : ':' ∉ s1.reverse := by simpa using hs1
  have hs2' : ':' ∉ s2.reverse := by simpa using hs2
  obtain ⟨hs, hrest⟩ := colon_append_inj hs1' hs2' hrev
  have hr1' : ':' ∉ r1.reverse := by simpa using hr1
  have hr2' : ':' ∉ r2.reverse := by simpa using hr2
  obtain ⟨hr, hu⟩ := colon_append_inj hr1' hr2' hrest
  refine ⟨?_, ?_, ?_⟩
  · have := congrArg List.reverse hu
    simpa using this
  · have := congrArg List.reverse hr
    simpa using this
  · have := congrArg List.reverse hs
    simpa using this

theorem subKey_source_inj {u r s1 s2 : Str} (h : subKey u r s1 = subKey u r s2) :
    s1 = s2 := by
  unfold subKey at h
  have h1 := List.append_cancel_left h
  injection h1 with _ h2
  have h3 := List.append_cancel_left h2
  injection h3 with _ h4

theorem regions_colon_free : ∀ r ∈ regions, ':' ∉ r := by decide

theorem sources_colon_free : ∀ s ∈ validSources, ':' ∉ s := by decide

theorem normalizeRegion_mem (r : Option Str) : normalizeRegion r ∈ regions := by
  unfold normalizeRegion
  by_cases h : jsUpper (jsOr r (str "EU")) ∈ regions
  · rw [if_pos h]; exact h
  · rw [if_neg h]; decide

theorem normalizeSource_mem (s : Option Str) : P0.normalizeSource s ∈ validSources := by
  unfold P0.normalizeSource
  by_cases h : s.getD (str "store") ∈ validSources
  · rw [if_pos h]; exact h
  · rw [if_neg h]; decide

theorem splitAux_no_sep {sep : Char} {s : Str} (h : sep ∉ s) (acc : List Char) :
    splitAux sep s acc = [acc.reverse ++ s] := by
  induction s generalizing acc with
  | nil => simp [splitAux]
  | cons c s ih =>
    have hc : ¬ c = sep := fun e => h (List.mem_cons.mpr (Or.inl e.symm))
    rw [splitAux, if_neg hc, ih (fun hm => h (List.mem_cons_of_mem _ hm))]
    simp [List.reverse_cons, List.append_assoc]

theorem splitAux_sep_split {sep : Char} {a : Str} (h : sep ∉ a) (t : Str) (acc : List Char) :
    splitAux sep (a ++ sep :: t) acc = (acc.reverse ++ a) :: splitAux sep t [] := by
  induction a generalizing acc with
  | nil => simp [splitAux]
  | cons c a ih =>
    have hc : ¬ c = sep := fun e => h (List.mem_cons.mpr (Or.inl e.symm))
    rw [List.cons_append, splitAux, if_neg hc, ih (fun hm => h (List.mem_cons_of_mem _ hm))]
    simp [List.reverse_cons, List.append_assoc]

/-- `"uid:region:source".split(':')` recovers exactly the three components
when every component is colon-free. -/
theorem jsSplit_subKey {u r s : Str} (hu : ':' ∉ u) (hr : ':' ∉ r) (hs : ':' ∉ s) :
    jsSplit (subKey u r s) ':' = [u, r, s] := by
  unfold jsSplit subKey
  rw [splitAux_sep_split hu, splitAux_sep_split hr, splitAux_no_sep hs]
  simp


theorem inv_empty : Inv Db.empty := by decide

theorem not_mem_keys_of_get_none {α β : Type} [DecidableEq α] {m : List (α × β)} {k : α}
    (h : mapGet m k = none) : k ∉ m.map Prod.fst := by
  rw [mapGet_eq_none_iff] at h
  intro hk
  obtain ⟨p, hp, hpk⟩ := List.mem_map.mp hk
  exact h p hp hpk

theorem inv_sound {db : Db} (h : Inv db) (k : Option Str) :
    ∀ e ∈ SubAt db k, validEntry db k e := by
  intro e he
  unfold SubAt at he
  cases hm : mapGet db.skinSubscriptions k with
  | none => rw [hm] at he; simp at he
  | some b =>
    rw [hm] at he
    exact h.2.2.2.2.2 (k, b) (mapGet_mem hm) e he

theorem inv_bucket_nodup {db : Db} (h : Inv db) (k : Option Str) :
    (SubAt db k).Nodup := by
  unfold SubAt
  cases hm : mapGet db.skinSubscriptions k with
  | none => simp
  | some b =>
    simp only [Option.getD_some]
    exact h.2.2.2.1 (k, b) (mapGet_mem hm)

theorem inv_user_eq {db : Db} (h : Inv db) {uid : Str} {u : UserData} {p : Str × UserData}
    (hm : mapGet db.wishlist uid = some u) (hp : p ∈ db.wishlist) (hk : p.1 = uid) :
    p = (uid, u) := by
  exact pair_eq_of_mem_nodup h.2.1 hp (mapGet_mem hm) (by rw [hk])

/-! ### Effect of the three bucket-update shapes on bucket membership -/

/-- The reverse-index update of an add: membership after
`get(skinId).add(key)` (bucket created when absent). -/
theorem subsInsert_mem (subs : List (Option Str × List Str)) (k0 : Option Str) (key : Str)
    (k : Option Str) (e : Str) :
    e ∈ (mapGet (mapSet subs k0 (setAdd ((mapGet subs k0).getD []) key)) k).getD [] ↔
      e ∈ (mapGet subs k).getD [] ∨ (k = k0 ∧ e = key) := by
  by_cases hk : k = k0
  · subst hk
    rw [mapGet_mapSet_self]
    simp [mem_setAdd]
  · rw [mapGet_mapSet_ne _ _ hk]
    simp [hk]

theorem subsInsert_keys_nodup {subs : List (Option Str × List Str)}
    (h : (subs.map Prod.fst).Nodup) (k0 : Option Str) (key : Str) :
    ((mapSet subs k0 (setAdd ((mapGet subs k0).getD []) key)).map Prod.fst).Nodup := by
  cases hm : mapGet subs k0 with
  | some b => rw [keys_mapSet_of_get_some hm]; exact h
  | none =>
    rw [mapSet_of_get_none _ hm, List.map_append]
    simp only [List.map_cons, List.map_nil]
    rw [List.nodup_append]
    exact ⟨h, List.nodup_singleton _, by
      intro a ha hb
      simp only [List.mem_singleton] at hb
      exact not_mem_keys_of_get_none hm (hb ▸ ha)⟩

theorem subsInsert_buckets_nodup {subs : List (Option Str × List Str)}
    (h : ∀ q ∈ subs, q.2.Nodup) (k0 : Option Str) (key : Str) :
    ∀ q ∈ mapSet subs k0 (setAdd ((mapGet subs k0).getD []) key), q.2.Nodup := by
  intro q hq
  rcases mem_mapSet_weak hq with h' | h'
  · exact h q h'
  · rw [h']
    apply nodup_setAdd
    cases hm : mapGet subs k0 with
    | none => simp
    | some b =>
      simp only [Option.getD_some]
      exact h (k0, b) (mapGet_mem hm)

theorem subsRemove_eq_of_get_none {subs : List (Option Str × List Str)} {skinId : Str}
    (hm : mapGet subs (some skinId) = none) (key : Str) :
    subsRemove subs skinId key = subs := by
  unfold subsRemove
  rw [hm]

theorem subsRemove_eq_of_get_some {subs : List (Option Str × List Str)} {skinId : Str}
    {b : List Str} (hm : mapGet subs (some skinId) = some b) (key : Str) :
    subsRemove subs skinId key =
      if setDelete b key = [] then mapDelete subs (some skinId)
      else mapSet subs (some skinId) (setDelete b key) := by
  unfold subsRemove
  rw [hm]

theorem subsRemove_mem (subs : List (Option Str × List Str)) (skinId : Str) (key : Str)
    (k : Option Str) (e : Str) :
    e ∈ (mapGet (subsRemove subs skinId key) k).getD [] ↔
      e ∈ (mapGet subs k).getD [] ∧ ¬(k = some skinId ∧ e = key) := by
  by_cases hk : k = some skinId
  · subst hk
    cases hm : mapGet subs (some skinId) with
    | none =>
      rw [subsRemove_eq_of_get_none hm]
      simp [hm]
    | some b =>
      rw [subsRemove_eq_of_get_some hm]
      by_cases hb : setDelete b key = []
      · rw [if_pos hb, mapGet_mapDelete_self]
        simp only [Option.getD_none, List.not_mem_nil, Option.getD_some, false_iff]
        rintro ⟨hmem, hne⟩
        by_cases hek : e = key
        · exact hne ⟨by simp, hek⟩
        · have hx : e ∈ setDelete b key := mem_setDelete.mpr ⟨hmem, hek⟩
          rw [hb] at hx
          exact absurd hx (List.not_mem_nil e)
      · rw [if_neg hb, mapGet_mapSet_self]
        simp only [Option.getD_some, mem_setDelete]
        constructor
        · rintro ⟨hmem, hne⟩
          exact ⟨hmem, fun hc => hne hc.2⟩
        · rintro ⟨hmem, hne⟩
          exact ⟨hmem, fun he => hne ⟨by simp, he⟩⟩
  · have hrw : mapGet (subsRemove subs skinId key) k = mapGet subs k := by
      cases hm : mapGet subs (some skinId) with
      | none => rw [subsRemove_eq_of_get_none hm]
      | some b =>
        rw [subsRemove_eq_of_get_some hm]
        by_cases hb : setDelete b key = []
        · rw [if_pos hb, mapGet_mapDelete_ne _ hk]
        · rw [if_neg hb, mapGet_mapSet_ne _ _ hk]
    rw [hrw]
    simp [hk]

theorem subsRemove_keys_nodup {subs : List (Option Str × List Str)}
    (h : (subs.map Prod.fst).Nodup) (skinId : Str) (key : Str) :
    ((subsRemove subs skinId key).map Prod.fst).Nodup := by
  cases hm : mapGet subs (some skinId) with
  | none => rw [subsRemove_eq_of_get_none hm]; exact h
  | some b =>
    rw [subsRemove_eq_of_get_some hm]
    by_cases hb : setDelete b key = []
    · rw [if_pos hb]
      exact List.Nodup.sublist (keys_mapDelete_sublist _ _) h
    · rw [if_neg hb, keys_mapSet_of_get_some hm]
      exact h

theorem subsRemove_buckets_nodup {subs : List (Option Str × List Str)}
    (h : ∀ q ∈ subs, q.2.Nodup) (skinId : Str) (key : Str) :
    ∀ q ∈ subsRemove subs skinId key, q.2.Nodup := by
  cases hm : mapGet subs (some skinId) with
  | none => rw [subsRemove_eq_of_get_none hm]; exact h
  | some b =>
    rw [subsRemove_eq_of_get_some hm]
    by_cases hb : setDelete b key = []
    · rw [if_pos hb]
      intro q hq
      exact h q (List.Sublist.mem hq (mapDelete_sublist _ _))
    · rw [if_neg hb]
      intro q hq
      rcases mem_mapSet_weak hq with h' | h'
      · exact h q h'
      · rw [h']
        exact nodup_setDelete (h (some skinId, b) (mapGet_mem hm)) _

/-! ### Unfolding equations for the `part_000` operations -/

theorem addItem_eq_found {db : Db} {uid : Str} {u : UserData}
    (hm : mapGet db.wishlist uid = some u) (skinId : Option Str) (nm src : Option Str) :
    P0.addItem db uid skinId nm src =
      if u.items.any (fun i =>
          decide (i.skinId = skinId) && decide (i.source = P0.normalizeSource src)) then
        (.already (generateTopicName u.region (P0.normalizeSource src) (renderOpt skinId)), db)
      else
        (.added ⟨skinId, jsOr nm (str "Unknown Skin"), P0.normalizeSource src⟩
            (generateTopicName u.region (P0.normalizeSource src) (renderOpt skinId)),
          { wishlist := mapSet db.wishlist uid
              { u with items :=
                  u.items ++ [⟨skinId, jsOr nm (str "Unknown Skin"), P0.normalizeSource src⟩] },
            skinSubscriptions := mapSet db.skinSubscriptions skinId
              (setAdd (SubAt db skinId) (subKey uid u.region (P0.normalizeSource src))) }) := by
  unfold P0.addItem
  rw [hm]

theorem addItem_eq_fresh {db : Db} {uid : Str}
    (hm : mapGet db.wishlist uid = none) (skinId : Option Str) (nm src : Option Str) :
    P0.addItem db uid skinId nm src =
      (.added ⟨skinId, jsOr nm (str "Unknown Skin"), P0.normalizeSource src⟩
          (generateTopicName (str "EU") (P0.normalizeSource src) (renderOpt skinId)),
        { wishlist := mapSet (mapSet db.wishlist uid ⟨str "EU", []⟩) uid
            ⟨str "EU", [⟨skinId, jsOr nm (str "Unknown Skin"), P0.normalizeSource src⟩]⟩,
          skinSubscriptions := mapSet db.skinSubscriptions skinId
            (setAdd (SubAt db skinId) (subKey uid (str "EU") (P0.normalizeSource src))) }) := by
  unfold P0.addItem
  rw [hm]

theorem removeItem_eq_none {db : Db} {uid : Str}
    (hm : mapGet db.wishlist uid = none) (skinId : Str) (src : Option Str) :
    P0.removeItem db uid skinId src = (.notFoundUser, db) := by
  unfold P0.removeItem
  rw [hm]

theorem removeItem_eq_found {db : Db} {uid : Str} {u : UserData}
    (hm : mapGet db.wishlist uid = some u) (skinId : Str) (src : Option Str) :
    P0.removeItem db uid skinId src =
      if (u.items.filter (keepItem skinId (src.getD (str "store")))).length =
          u.items.length then
        (.notFoundItem,
          ⟨mapSet db.wishlist uid
              ⟨u.region, u.items.filter (keepItem skinId (src.getD (str "store")))⟩,
            db.skinSubscriptions⟩)
      else
        (.removed (generateTopicName u.region (src.getD (str "store")) skinId),
          ⟨mapSet db.wishlist uid
              ⟨u.region, u.items.filter (keepItem skinId (src.getD (str "store")))⟩,
            subsRemove db.skinSubscriptions skinId
              (subKey uid u.region (src.getD (str "store")))⟩) := by
  unfold P0.removeItem
  rw [hm]

theorem setRegion_eq_none {db : Db} {uid : Str}
    (hm : mapGet db.wishlist uid = none) (region : Option Str) :
    P0.setRegion db uid region = (.notFound, db) := by
  unfold P0.setRegion
  rw [hm]

theorem setRegion_eq_found {db : Db} {uid : Str} {u : UserData}
    (hm : mapGet db.wishlist uid = some u) (region : Option Str) :
    P0.setRegion db uid region =
      (.ok (normalizeRegion region),
        { wishlist := mapSet db.wishlist uid { u with region := normalizeRegion region },
          skinSubscriptions := u.items.foldl
            (P0.relocateItem uid u.region (normalizeRegion region)) db.skinSubscriptions }) := by
  unfold P0.setRegion
  rw [hm]

/-! ### Invariant preservation -/

theorem inv_register {db : Db} (h : Inv db) {uid : Str}
    (hfresh : mapGet db.wishlist uid = none) (region : Option Str) :
    Inv (P0.register db uid region).2 := by
  obtain ⟨huser, hwnd, hsnd, hbnd, hcomp, hsound⟩ := h
  have hfkeys : uid ∉ db.wishlist.map Prod.fst := not_mem_keys_of_get_none hfresh
  have hwl : mapSet db.wishlist uid ⟨normalizeRegion region, []⟩ =
      db.wishlist ++ [(uid, ⟨normalizeRegion region, []⟩)] := mapSet_of_get_none _ hfresh
  unfold P0.register
  simp only
  rw [hwl]
  have hmem : ∀ p : Str × UserData,
      p ∈ db.wishlist ++ [(uid, (⟨normalizeRegion region, []⟩ : UserData))] ↔
        p ∈ db.wishlist ∨ p = (uid, ⟨normalizeRegion region, []⟩) := by
    intro p
    simp [List.mem_append]
  refine ⟨?_, ?_, hsnd, hbnd, ?_, ?_⟩
  · intro p hp
    rcases (hmem p).mp hp with hold | hnew
    · exact huser p hold
    · rw [hnew]
      exact ⟨normalizeRegion_mem region, by simp, by simp [itemsDistinct]⟩
  · rw [List.map_append]
    simp only [List.map_cons, List.map_nil]
    rw [List.nodup_append]
    refine ⟨hwnd, List.nodup_singleton _, ?_⟩
    intro a ha hb
    simp only [List.mem_singleton] at hb
    exact hfkeys (hb ▸ ha)
  · intro p hp i hi
    rcases (hmem p).mp hp with hold | hnew
    · exact hcomp p hold i hi
    · rw [hnew] at hi
      simp at hi
  · intro q hq e he
    obtain ⟨p, hp, i, hi, hski, hke⟩ := hsound q hq e he
    exact ⟨p, (hmem p).mpr (Or.inl hp), i, hi, hski, hke⟩

theorem inv_addItem (db : Db) (uid : Str) (skinId : Option Str) (nm src : Option Str)
    (h : Inv db) : Inv (P0.addItem db uid skinId nm src).2 := by
  obtain ⟨huser, hwnd, hsnd, hbnd, hcomp, hsound⟩ := h
  have hsrcmem := normalizeSource_mem src
  cases hm : mapGet db.wishlist uid with
  | some u =>
    rw [addItem_eq_found hm skinId nm src]
    by_cases hex : u.items.any (fun i =>
        decide (i.skinId = skinId) && decide (i.source = P0.normalizeSource src)) = true
    · rw [if_pos hex]
      exact ⟨huser, hwnd, hsnd, hbnd, hcomp, hsound⟩
    · rw [if_neg hex]
      simp only
      obtain ⟨hreg, hsrcs, hdist⟩ := huser (uid, u) (mapGet_mem hm)
      have hnotex : ∀ a ∈ u.items,
          ¬(a.skinId = skinId ∧ a.source = P0.normalizeSource src) := by
        intro a ha hcon
        exact hex (List.any_eq_true.mpr ⟨a, ha, by simp [hcon.1, hcon.2]⟩)
      refine ⟨?_, ?_, ?_, ?_, ?_, ?_⟩
      · intro p hp
        rcases (mem_mapSet_iff hwnd).mp hp with ⟨hpold, _⟩ | hpnew
        · exact huser p hpold
        · rw [hpnew]
          refine ⟨hreg, ?_, ?_⟩
          · intro i hi
            rcases List.mem_append.mp hi with hi | hi
            · exact hsrcs i hi
            · simp only [List.mem_singleton] at hi
              rw [hi]
              exact hsrcmem
          · unfold itemsDistinct
            rw [List.pairwise_append]
            refine ⟨hdist, List.pairwise_singleton _ _, ?_⟩
            intro a ha b hb
            simp only [List.mem_singleton] at hb
            rw [hb]
            by_cases hsk : a.skinId = skinId
            · right
              intro hsrc
              exact hnotex a ha ⟨hsk, hsrc⟩
            · left
              exact hsk
      · rw [keys_mapSet_of_get_some hm]
        exact hwnd
      · simp only [SubAt]
        exact subsInsert_keys_nodup hsnd skinId _
      · simp only [SubAt]
        exact subsInsert_buckets_nodup hbnd skinId _
      · intro p hp i hi
        simp only [SubAt, subsInsert_mem]
        rcases (mem_mapSet_iff hwnd).mp hp with ⟨hpold, _⟩ | hpnew
        · left
          exact hcomp p hpold i hi
        · rw [hpnew] at hi ⊢
          simp only at hi ⊢
          rcases List.mem_append.mp hi with hio | hin
          · left
            exact hcomp (uid, u) (mapGet_mem hm) i hio
          · simp only [List.mem_singleton] at hin
            rw [hin]
            right
            exact ⟨rfl, rfl⟩
      · intro q hq e he
        have hlift : ∀ k' e', validEntry db k' e' →
            validEntry ⟨mapSet db.wishlist uid
                ⟨u.region, u.items ++
                  [⟨skinId, jsOr nm (str "Unknown Skin"), P0.normalizeSource src⟩]⟩,
              mapSet db.skinSubscriptions skinId
                (setAdd (SubAt db skinId)
                  (subKey uid u.region (P0.normalizeSource src)))⟩ k' e' := by
          rintro k' e' ⟨p, hp, i, hi, hski, hke⟩
          by_cases hpu : p.1 = uid
          · have hpe : p = (uid, u) := pair_eq_of_mem_nodup hwnd hp (mapGet_mem hm) hpu
            refine ⟨(uid, ⟨u.region, u.items ++
                [⟨skinId, jsOr nm (str "Unknown Skin"), P0.normalizeSource src⟩]⟩),
              (mem_mapSet_iff hwnd).mpr (Or.inr rfl), i, ?_, hski, ?_⟩
            · simp only
              exact List.mem_append.mpr (Or.inl (by rw [hpe] at hi; exact hi))
            · rw [hke, hpe]
          · exact ⟨p, (mem_mapSet_iff hwnd).mpr (Or.inl ⟨hp, hpu⟩), i, hi, hski, hke⟩
        rcases mem_mapSet_weak hq with hqold | hqnew
        · exact hlift q.1 e (hsound q hqold e he)
        · rw [hqnew] at he ⊢
          simp only at he ⊢
          rcases mem_setAdd.mp he with heold | henew
          · have : validEntry db skinId e := by
              apply inv_sound ⟨huser, hwnd, hsnd, hbnd, hcomp, hsound⟩
              exact heold
            exact hlift skinId e this
          · rw [henew]
            exact ⟨(uid, ⟨u.region, u.items ++
                [⟨skinId, jsOr nm (str "Unknown Skin"), P0.normalizeSource src⟩]⟩),
              (mem_mapSet_iff hwnd).mpr (Or.inr rfl),
              ⟨skinId, jsOr nm (str "Unknown Skin"), P0.normalizeSource src⟩,
              List.mem_append.mpr (Or.inr (List.mem_singleton.mpr rfl)), rfl, rfl⟩
  | none =>
    rw [addItem_eq_fresh hm skinId nm src]
    simp only
    rw [mapSet_mapSet, mapSet_of_get_none _ hm]
    have hfkeys : uid ∉ db.wishlist.map Prod.fst := not_mem_keys_of_get_none hm
    have hnotu : ∀ p ∈ db.wishlist, p.1 ≠ uid := (mapGet_eq_none_iff _ _).mp hm
    have hmem : ∀ p : Str × UserData,
        p ∈ db.wishlist ++
            [(uid, (⟨str "EU",
              [⟨skinId, jsOr nm (str "Unknown Skin"), P0.normalizeSource src⟩]⟩ : UserData))] ↔
          p ∈ db.wishlist ∨ p = (uid, ⟨str "EU",
            [⟨skinId, jsOr nm (str "Unknown Skin"), P0.normalizeSource src⟩]⟩) := by
      intro p
      simp [List.mem_append]
    refine ⟨?_, ?_, ?_, ?_, ?_, ?_⟩
    · intro p hp
      rcases (hmem p).mp hp with hold | hnew
      · exact huser p hold
      · rw [hnew]
        refine ⟨?_, ?_, ?_⟩
        · show str "EU" ∈ regions
          decide
        · intro i hi
          simp only [List.mem_singleton] at hi
          rw [hi]
          exact hsrcmem
        · simp [itemsDistinct]
    · rw [List.map_append]
      simp only [List.map_cons, List.map_nil]
      rw [List.nodup_append]
      refine ⟨hwnd, List.nodup_singleton _, ?_⟩
      intro a ha hb
      simp only [List.mem_singleton] at hb
      exact hfkeys (hb ▸ ha)
    · simp only [SubAt]
      exact subsInsert_keys_nodup hsnd skinId _
    · simp only [SubAt]
      exact subsInsert_buckets_nodup hbnd skinId _
    · intro p hp i hi
      simp only [SubAt, subsInsert_mem]
      rcases (hmem p).mp hp with hold | hnew
      · left
        exact hcomp p hold i hi
      · rw [hnew] at hi ⊢
        simp only [List.mem_singleton] at hi
        rw [hi]
        right
        exact ⟨rfl, rfl⟩
    · intro q hq e he
      have hlift : ∀ k' e', validEntry db k' e' →
          validEntry ⟨db.wishlist ++
              [(uid, ⟨str "EU",
                [⟨skinId, jsOr nm (str "Unknown Skin"), P0.normalizeSource src⟩]⟩)],
            mapSet db.skinSubscriptions skinId
              (setAdd (SubAt db skinId)
                (subKey uid (str "EU") (P0.normalizeSource src)))⟩ k' e' := by
        rintro k' e' ⟨p, hp, i, hi, hski, hke⟩
        exact ⟨p, (hmem p).mpr (Or.inl hp), i, hi, hski, hke⟩
      rcases mem_mapSet_weak hq with hqold | hqnew
      · exact hlift q.1 e (hsound q hqold e he)
      · rw [hqnew] at he ⊢
        simp only at he ⊢
        rcases mem_setAdd.mp he with heold | henew
        · have : validEntry db skinId e := by
            apply inv_sound ⟨huser, hwnd, hsnd, hbnd, hcomp, hsound⟩
            exact heold
          exact hlift skinId e this
        · rw [henew]
          exact ⟨(uid, ⟨str "EU",
              [⟨skinId, jsOr nm (str "Unknown Skin"), P0.normalizeSource src⟩]⟩),
            (hmem _).mpr (Or.inr rfl),
            ⟨skinId, jsOr nm (str "Unknown Skin"), P0.normalizeSource src⟩,
            List.mem_singleton.mpr rfl, rfl, rfl⟩


theorem filter_eq_self_of_length {α : Type} {l : List α} {p : α → Bool}
    (h : (l.filter p).length = l.length) : l.filter p = l :=
  List.Sublist.eq_of_length (List.filter_sublist l) h

theorem exists_not_keep_of_length_ne {α : Type} {l : List α} {p : α → Bool}
    (h : ¬ (l.filter p).length = l.length) : ∃ x ∈ l, ¬ p x = true := by
  by_contra hc
  push_neg at hc
  have heq : l.filter p = l := List.filter_eq_self.mpr hc
  rw [heq] at h
  exact h rfl

theorem keepItem_false_iff (skinId : Str) (src : Str) (i : Item) :
    keepItem skinId src i = false ↔ i.skinId = some skinId ∧ i.source = src := by
  simp [keepItem]

theorem inv_removeItem (db : Db) (uid skinId : Str) (src : Option Str)
    (h : Inv db) : Inv (P0.removeItem db uid skinId src).2 := by
  obtain ⟨huser, hwnd, hsnd, hbnd, hcomp, hsound⟩ := h
  cases hm : mapGet db.wishlist uid with
  | none =>
    rw [removeItem_eq_none hm]
    exact ⟨huser, hwnd, hsnd, hbnd, hcomp, hsound⟩
  | some u =>
    rw [removeItem_eq_found hm skinId src]
    obtain ⟨hreg, hsrcs, hdist⟩ := huser (uid, u) (mapGet_mem hm)
    by_cases hlen : (u.items.filter (keepItem skinId (src.getD (str "store")))).length =
        u.items.length
    · rw [if_pos hlen]
      have hfeq := filter_eq_self_of_length hlen
      have hwleq : mapSet db.wishlist uid
          ⟨u.region, u.items.filter (keepItem skinId (src.getD (str "store")))⟩ =
          db.wishlist := by
        rw [hfeq]
        exact mapSet_self hm
      simp only [hwleq]
      exact ⟨huser, hwnd, hsnd, hbnd, hcomp, hsound⟩
    · rw [if_neg hlen]
      simp only
      obtain ⟨i0, hi0, hki0⟩ := exists_not_keep_of_length_ne hlen
      rw [Bool.not_eq_true] at hki0
      obtain ⟨hi0sk, hi0src⟩ := (keepItem_false_iff _ _ _).mp hki0
      have hsrcvalid : src.getD (str "store") ∈ validSources := by
        rw [← hi0src]
        exact hsrcs i0 hi0
      have hrcf : ':' ∉ u.region := regions_colon_free u.region hreg
      have hscf : ':' ∉ src.getD (str "store") := sources_colon_free _ hsrcvalid
      refine ⟨?_, ?_, ?_, ?_, ?_, ?_⟩
      · intro p hp
        rcases (mem_mapSet_iff hwnd).mp hp with ⟨hpold, _⟩ | hpnew
        · exact huser p hpold
        · rw [hpnew]
          refine ⟨hreg, ?_, ?_⟩
          · intro i hi
            exact hsrcs i (List.mem_of_mem_filter hi)
          · exact List.Pairwise.sublist (List.filter_sublist _) hdist
      · rw [keys_mapSet_of_get_some hm]
        exact hwnd
      · exact subsRemove_keys_nodup hsnd skinId _
      · exact subsRemove_buckets_nodup hbnd skinId _
      · intro p hp i hi
        simp only [SubAt, subsRemove_mem]
        rcases (mem_mapSet_iff hwnd).mp hp with ⟨hpold, hpne⟩ | hpnew
        · refine ⟨hcomp p hpold i hi, ?_⟩
          rintro ⟨hik, hkey⟩
          obtain ⟨hrp, hsp, _⟩ := huser p hpold
          obtain ⟨hpu, _, _⟩ := subKey_inj (regions_colon_free _ hrp)
            (sources_colon_free _ (hsp i hi)) hrcf hscf hkey
          exact hpne hpu
        · rw [hpnew] at hi ⊢
          simp only at hi ⊢
          have hii := List.mem_of_mem_filter hi
          have hkeep := (List.mem_filter.mp hi).2
          refine ⟨hcomp (uid, u) (mapGet_mem hm) i hii, ?_⟩
          rintro ⟨hik, hkey⟩
          have hisrc : i.source = src.getD (str "store") := subKey_source_inj hkey
          rw [(keepItem_false_iff skinId (src.getD (str "store")) i).mpr
            ⟨hik, hisrc⟩] at hkeep
          cases hkeep
      · intro q hq e he
        have hqnd := subsRemove_keys_nodup hsnd skinId
          (subKey uid u.region (src.getD (str "store")))
        have hget := mapGet_eq_of_mem_nodup hqnd hq
        have hein : e ∈ (mapGet (subsRemove db.skinSubscriptions skinId
            (subKey uid u.region (src.getD (str "store")))) q.1).getD [] := by
          rw [hget]
          exact he
        rw [subsRemove_mem] at hein
        obtain ⟨heold, hne⟩ := hein
        have hval : validEntry db q.1 e :=
          inv_sound ⟨huser, hwnd, hsnd, hbnd, hcomp, hsound⟩ q.1 e heold
        obtain ⟨p, hp, i, hi, hski, hke⟩ := hval
        by_cases hpu : p.1 = uid
        · have hpe : p = (uid, u) := pair_eq_of_mem_nodup hwnd hp (mapGet_mem hm) hpu
          by_cases hkeep : keepItem skinId (src.getD (str "store")) i = true
          · refine ⟨(uid, ⟨u.region,
                u.items.filter (keepItem skinId (src.getD (str "store")))⟩),
              (mem_mapSet_iff hwnd).mpr (Or.inr rfl), i, ?_, hski, ?_⟩
            · exact List.mem_filter.mpr ⟨by rw [hpe] at hi; exact hi, hkeep⟩
            · rw [hke, hpe]
          · rw [Bool.not_eq_true] at hkeep
            obtain ⟨hisk, hisrc⟩ := (keepItem_false_iff _ _ _).mp hkeep
            exfalso
            apply hne
            constructor
            · rw [← hski, hisk]
            · rw [hke, hpe]
              simp only
              rw [hisrc]
        · exact ⟨p, (mem_mapSet_iff hwnd).mpr (Or.inl ⟨hp, hpu⟩), i, hi, hski, hke⟩


/-! ### The region-change relocation loop -/

theorem relocateItem_eq (uid oldR newR : Str) (subs : List (Option Str × List Str)) (i : Item) :
    P0.relocateItem uid oldR newR subs i =
      mapSet subs i.skinId
        (setAdd (setDelete ((mapGet subs i.skinId).getD []) (subKey uid oldR i.source))
          (subKey uid newR i.source)) := rfl

theorem mapSet_keys_nodup {α β : Type} [DecidableEq α] {m : List (α × β)}
    (h : (m.map Prod.fst).Nodup) (k : α) (v : β) :
    ((mapSet m k v).map Prod.fst).Nodup := by
  cases hm : mapGet m k with
  | some b => rw [keys_mapSet_of_get_some hm]; exact h
  | none =>
    rw [mapSet_of_get_none _ hm, List.map_append]
    simp only [List.map_cons, List.map_nil]
    rw [List.nodup_append]
    refine ⟨h, List.nodup_singleton _, ?_⟩
    intro a ha hb
    simp only [List.mem_singleton] at hb
    exact not_mem_keys_of_get_none hm (hb ▸ ha)

theorem relocateItem_mem (uid oldR newR : Str) (subs : List (Option Str × List Str))
    (i : Item) (k : Option Str) (e : Str) :
    e ∈ (mapGet (P0.relocateItem uid oldR newR subs i) k).getD [] ↔
      (e ∈ (mapGet subs k).getD [] ∧ ¬(k = i.skinId ∧ e = subKey uid oldR i.source)) ∨
      (k = i.skinId ∧ e = subKey uid newR i.source) := by
  rw [relocateItem_eq]
  by_cases hk : k = i.skinId
  · subst hk
    rw [mapGet_mapSet_self]
    simp only [Option.getD_some, mem_setAdd, mem_setDelete]
    constructor
    · rintro (⟨heb, hene⟩ | hen)
      · exact Or.inl ⟨heb, fun hc => hene hc.2⟩
      · exact Or.inr ⟨by simp, hen⟩
    · rintro (⟨heb, hne⟩ | ⟨_, hen⟩)
      · exact Or.inl ⟨heb, fun he => hne ⟨by simp, he⟩⟩
      · exact Or.inr hen
  · rw [mapGet_mapSet_ne _ _ hk]
    simp [hk]

theorem relocateItem_keys_nodup {subs : List (Option Str × List Str)}
    (h : (subs.map Prod.fst).Nodup) (uid oldR newR : Str) (i : Item) :
    ((P0.relocateItem uid oldR newR subs i).map Prod.fst).Nodup := by
  rw [relocateItem_eq]
  exact mapSet_keys_nodup h _ _

theorem relocateItem_buckets_nodup {subs : List (Option Str × List Str)}
    (h : ∀ q ∈ subs, q.2.Nodup) (uid oldR newR : Str) (i : Item) :
    ∀ q ∈ P0.relocateItem uid oldR newR subs i, q.2.Nodup := by
  rw [relocateItem_eq]
  intro q hq
  rcases mem_mapSet_weak hq with h' | h'
  · exact h q h'
  · rw [h']
    apply nodup_setAdd
    apply nodup_setDelete
    cases hm : mapGet subs i.skinId with
    | none => simp
    | some b =>
      simp only [Option.getD_some]
      exact h (i.skinId, b) (mapGet_mem hm)


/-- Effect of relocating a suffix `todo` of the user's items: processed
items contribute entries under the new region, unprocessed ones still
under the old region, other users' entries are untouched. -/
theorem relocate_fold_char (db : Db) (uid : Str) (u : UserData) (newR : Str)
    (hInv : Inv db) (hm : mapGet db.wishlist uid = some u) (hnewR : newR ∈ regions) :
    ∀ (todo done : List Item) (subs : List (Option Str × List Str)),
      u.items = done ++ todo →
      (subs.map Prod.fst).Nodup →
      (∀ q ∈ subs, q.2.Nodup) →
      (∀ k e, e ∈ (mapGet subs k).getD [] ↔
        othersEntry db uid k e ∨ ownEntry uid newR done k e ∨
          ownEntry uid u.region todo k e) →
      ((todo.foldl (P0.relocateItem uid u.region newR) subs).map Prod.fst).Nodup ∧
      (∀ q ∈ todo.foldl (P0.relocateItem uid u.region newR) subs, q.2.Nodup) ∧
      (∀ k e, e ∈ (mapGet (todo.foldl (P0.relocateItem uid u.region newR) subs) k).getD [] ↔
        othersEntry db uid k e ∨ ownEntry uid newR u.items k e) := by
  intro todo
  induction todo with
  | nil =>
    intro done subs hsplit hknd hbnd hchar
    simp only [List.foldl_nil]
    refine ⟨hknd, hbnd, ?_⟩
    intro k e
    rw [hchar k e]
    constructor
    · rintro (hh | hh | hh)
      · exact Or.inl hh
      · right
        rw [hsplit, List.append_nil]
        exact hh
      · obtain ⟨i, hi, _⟩ := hh
        exact absurd hi (List.not_mem_nil i)
    · rintro (hh | hh)
      · exact Or.inl hh
      · rw [hsplit, List.append_nil] at hh
        exact Or.inr (Or.inl hh)
  | cons i todo ih =>
    intro done subs hsplit hknd hbnd hchar
    simp only [List.foldl_cons]
    obtain ⟨hreg, hsrcs, hdist⟩ := hInv.1 (uid, u) (mapGet_mem hm)
    have hi_mem : i ∈ u.items := by
      rw [hsplit]
      exact List.mem_append.mpr (Or.inr (List.mem_cons_self i todo))
    have hscf_i : ':' ∉ i.source := sources_colon_free _ (hsrcs i hi_mem)
    have hrcf_old : ':' ∉ u.region := regions_colon_free _ hreg
    have hrcf_new : ':' ∉ newR := regions_colon_free _ hnewR
    have hdist' : (done ++ i :: todo).Pairwise
        (fun a b => a.skinId ≠ b.skinId ∨ a.source ≠ b.source) := by
      have := hdist
      unfold itemsDistinct at this
      rw [hsplit] at this
      exact this
    obtain ⟨hpd, hpit, hcross⟩ := List.pairwise_append.mp hdist'
    have hicons := List.pairwise_cons.mp hpit
    have hdistinct : ∀ j, (j ∈ done ∨ j ∈ todo) → j.skinId = i.skinId →
        ¬ j.source = i.source := by
      intro j hj hsk hsrc
      rcases hj with hjd | hjt
      · rcases hcross j hjd i (List.mem_cons_self i todo) with hne | hne
        · exact hne hsk
        · exact hne hsrc
      · rcases hicons.1 j hjt with hne | hne
        · exact hne hsk.symm
        · exact hne hsrc.symm
    have h1char : ∀ k e,
        e ∈ (mapGet (P0.relocateItem uid u.region newR subs i) k).getD [] ↔
          othersEntry db uid k e ∨ ownEntry uid newR (done ++ [i]) k e ∨
            ownEntry uid u.region todo k e := by
      intro k e
      rw [relocateItem_mem, hchar k e]
      constructor
      · rintro (⟨hold, hnd⟩ | ⟨hk, he⟩)
        · rcases hold with hh | hh | hh
          · exact Or.inl hh
          · right; left
            obtain ⟨j, hj, hjk, hje⟩ := hh
            exact ⟨j, List.mem_append.mpr (Or.inl hj), hjk, hje⟩
          · obtain ⟨j, hj, hjk, hje⟩ := hh
            rcases List.mem_cons.mp hj with hji | hjt
            · exfalso
              apply hnd
              constructor
              · rw [← hjk, hji]
              · rw [hje, hji]
            · right; right
              exact ⟨j, hjt, hjk, hje⟩
        · right; left
          exact ⟨i, List.mem_append.mpr (Or.inr (List.mem_singleton.mpr rfl)), hk.symm, he⟩
      · rintro (hh | hh | hh)
        · obtain ⟨p, hp, hpne, j, hj, hjk, hje⟩ := hh
          left
          refine ⟨Or.inl ⟨p, hp, hpne, j, hj, hjk, hje⟩, ?_⟩
          rintro ⟨hk, he⟩
          obtain ⟨hrp, hsp, _⟩ := hInv.1 p hp
          rw [hje] at he
          obtain ⟨hpu, _, _⟩ := subKey_inj (regions_colon_free _ hrp)
            (sources_colon_free _ (hsp j hj)) hrcf_old hscf_i he
          exact hpne hpu
        · obtain ⟨j, hj, hjk, hje⟩ := hh
          rcases List.mem_append.mp hj with hjd | hji
          · left
            refine ⟨Or.inr (Or.inl ⟨j, hjd, hjk, hje⟩), ?_⟩
            rintro ⟨hk, he⟩
            rw [hje] at he
            have hjsrc : j.source ∈ validSources := hsrcs j
              (by rw [hsplit]; exact List.mem_append.mpr (Or.inl hjd))
            obtain ⟨_, _, hseq⟩ := subKey_inj hrcf_new (sources_colon_free _ hjsrc)
              hrcf_old hscf_i he
            exact hdistinct j (Or.inl hjd) (by rw [hjk, hk]) hseq
          · simp only [List.mem_singleton] at hji
            right
            rw [hji] at hjk hje
            exact ⟨hjk.symm, hje⟩
        · obtain ⟨j, hj, hjk, hje⟩ := hh
          left
          refine ⟨Or.inr (Or.inr ⟨j, List.mem_cons_of_mem _ hj, hjk, hje⟩), ?_⟩
          rintro ⟨hk, he⟩
          rw [hje] at he
          exact hdistinct j (Or.inr hj) (by rw [hjk, hk]) (subKey_source_inj he)
    exact ih (done ++ [i]) (P0.relocateItem uid u.region newR subs i)
      (by rw [hsplit]; simp)
      (relocateItem_keys_nodup hknd uid u.region newR i)
      (relocateItem_buckets_nodup hbnd uid u.region newR i)
      h1char

theorem inv_setRegion (db : Db) (uid : Str) (region : Option Str) (h : Inv db) :
    Inv (P0.setRegion db uid region).2 := by
  cases hm : mapGet db.wishlist uid with
  | none =>
    rw [setRegion_eq_none hm]
    exact h
  | some u =>
    rw [setRegion_eq_found hm region]
    simp only
    obtain ⟨hreg, hsrcs, hdist⟩ := h.1 (uid, u) (mapGet_mem hm)
    have hbase : ∀ k e, e ∈ (mapGet db.skinSubscriptions k).getD [] ↔
        othersEntry db uid k e ∨ ownEntry uid (normalizeRegion region) [] k e ∨
          ownEntry uid u.region u.items k e := by
      intro k e
      constructor
      · intro he
        obtain ⟨p, hp, i, hi, hski, hke⟩ := inv_sound h k e he
        by_cases hpu : p.1 = uid
        · have hpe := pair_eq_of_mem_nodup h.2.1 hp (mapGet_mem hm) hpu
          right; right
          refine ⟨i, by rw [hpe] at hi; exact hi, hski, ?_⟩
          rw [hke, hpe]
        · exact Or.inl ⟨p, hp, hpu, i, hi, hski, hke⟩
      · rintro (hh | hh | hh)
        · obtain ⟨p, hp, _, i, hi, hski, hke⟩ := hh
          rw [hke, ← hski]
          exact h.2.2.2.2.1 p hp i hi
        · obtain ⟨i, hi, _⟩ := hh
          exact absurd hi (List.not_mem_nil i)
        · obtain ⟨i, hi, hski, hke⟩ := hh
          rw [hke, ← hski]
          exact h.2.2.2.2.1 (uid, u) (mapGet_mem hm) i hi
    obtain ⟨hknd', hbnd', hchar'⟩ := relocate_fold_char db uid u (normalizeRegion region)
      h hm (normalizeRegion_mem region) u.items [] db.skinSubscriptions
      (by simp) h.2.2.1 h.2.2.2.1 hbase
    refine ⟨?_, ?_, hknd', hbnd', ?_, ?_⟩
    · intro p hp
      rcases (mem_mapSet_iff h.2.1).mp hp with ⟨hpold, _⟩ | hpnew
      · exact h.1 p hpold
      · rw [hpnew]
        exact ⟨normalizeRegion_mem region, hsrcs, hdist⟩
    · rw [keys_mapSet_of_get_some hm]
      exact h.2.1
    · intro p hp i hi
      rcases (mem_mapSet_iff h.2.1).mp hp with ⟨hpold, hpne⟩ | hpnew
      · exact (hchar' i.skinId _).mpr (Or.inl ⟨p, hpold, hpne, i, hi, rfl, rfl⟩)
      · rw [hpnew] at hi ⊢
        exact (hchar' i.skinId _).mpr (Or.inr ⟨i, hi, rfl, rfl⟩)
    · intro q hq e he
      have hget := mapGet_eq_of_mem_nodup hknd' hq
      have hein : e ∈ (mapGet (u.items.foldl
          (P0.relocateItem uid u.region (normalizeRegion region))
          db.skinSubscriptions) q.1).getD [] := by
        rw [hget]
        exact he
      rcases (hchar' q.1 e).mp hein with hh | hh
      · obtain ⟨p, hp, hpne, i, hi, hski, hke⟩ := hh
        exact ⟨p, (mem_mapSet_iff h.2.1).mpr (Or.inl ⟨hp, hpne⟩), i, hi, hski, hke⟩
      · obtain ⟨i, hi, hski, hke⟩ := hh
        exact ⟨(uid, { u with region := normalizeRegion region }),
          (mem_mapSet_iff h.2.1).mpr (Or.inr rfl), i, hi, hski, hke⟩


/-! ### Reachability and the C1 central invariant -/

theorem countP_eq_one_of_nodup_mem {α : Type} [DecidableEq α] {l : List α} {a : α}
    (hd : l.Nodup) (h : a ∈ l) : l.countP (fun x => decide (x = a)) = 1 := by
  induction l with
  | nil => simp at h
  | cons b l ih =>
    rw [List.nodup_cons] at hd
    rw [List.countP_cons]
    rcases List.mem_cons.mp h with he | hm
    · have hz : l.countP (fun x => decide (x = a)) = 0 := by
        rw [List.countP_eq_zero]
        intro x hx hxa
        rw [decide_eq_true_eq] at hxa
        rw [hxa, he] at hx
        exact hd.1 hx
      simp [hz, he.symm]
    · have hba : ¬(b = a) := fun e => hd.1 (e ▸ hm)
      simp [hba, ih hd.2 hm]

theorem reachable_inv {db : Db} (h : Reachable db) : Inv db := by
  induction h with
  | init => exact inv_empty
  | register db uid region _ hfresh ih => exact inv_register ih hfresh region
  | setRegion db uid region _ ih => exact inv_setRegion db uid region ih
  | addItem db uid skinId nm src _ ih => exact inv_addItem db uid skinId nm src ih
  | removeItem db uid skinId src _ ih => exact inv_removeItem db uid skinId src ih

/-- Claim C1 (amended to the `part_000` implementation): after any
sequence of completed operations, every live (user, item) pair has
exactly one matching entry in the reverse-index bucket for its skin id,
and every entry of the reverse index corresponds to a live pair. -/
theorem c1_reverse_index_invariant (db : Db) (h : Reachable db) :
    CentralInvariant db := by
  have hInv := reachable_inv h
  constructor
  · intro p hp i hi
    exact countP_eq_one_of_nodup_mem (inv_bucket_nodup hInv i.skinId)
      (hInv.2.2.2.2.1 p hp i hi)
  · exact hInv.2.2.2.2.2

/-- Witness for C1: a store reached by one auto-vivifying add satisfies
the central invariant. -/
theorem c1_reverse_index_invariant_witness :
    Reachable (P0.addItem Db.empty (str "u") (some (str "sk")) none none).2 ∧
    CentralInvariant (P0.addItem Db.empty (str "u") (some (str "sk")) none none).2 :=
  ⟨Reachable.addItem Db.empty (str "u") (some (str "sk")) none none Reachable.init,
    c1_reverse_index_invariant _
      (Reachable.addItem Db.empty (str "u") (some (str "sk")) none none Reachable.init)⟩

/-- Counterexample to C1 as stated, against `src/server.js`: after the
colliding adds of `sjCollideDb` (raw source `NA:store` for user `a`), the
completed removal of `a`'s item also destroys user `a:EU`'s only entry
and prunes the bucket, so a live item of `a:EU` is left with zero
reverse-index entries. -/
theorem c1_counterexample :
    (mapGet (SJ.removeItem sjCollideDb (str "a") (str "S")
        (some (str "NA:store"))).2.wishlist (str "a:EU") =
      some ⟨str "NA", [⟨some (str "S"), str "Unknown", str "store"⟩]⟩) ∧
    (mapGet (SJ.removeItem sjCollideDb (str "a") (str "S")
        (some (str "NA:store"))).2.skinSubscriptions (some (str "S")) = none) ∧
    ¬ CentralInvariant
        (SJ.removeItem sjCollideDb (str "a") (str "S") (some (str "NA:store"))).2 := by
  decide


/-! ### Claim C2: region-change consistency -/

/-- Claim C2: after `SetUserRegion(U, R2)` on a store satisfying the
invariant, every item of `U` has its entry recorded under the normalized
new region, and no reverse-index entry of `U` under any other region
remains in any bucket. -/
theorem c2_region_change_consistency (db : Db) (uid : Str) (u : UserData)
    (region : Option Str) (h : Inv db) (hm : mapGet db.wishlist uid = some u) :
    (∀ i ∈ u.items,
      subKey uid (normalizeRegion region) i.source ∈
        SubAt (P0.setRegion db uid region).2 i.skinId) ∧
    (∀ k : Option Str, ∀ r ∈ regions, r ≠ normalizeRegion region →
      ∀ s ∈ validSources, subKey uid r s ∉ SubAt (P0.setRegion db uid region).2 k) := by
  have hInv' : Inv (P0.setRegion db uid region).2 := inv_setRegion db uid region h
  have hm' : mapGet (P0.setRegion db uid region).2.wishlist uid =
      some { u with region := normalizeRegion region } := by
    rw [setRegion_eq_found hm region]
    exact mapGet_mapSet_self _ _ _
  constructor
  · intro i hi
    have := hInv'.2.2.2.2.1 (uid, { u with region := normalizeRegion region })
      (mapGet_mem hm') i hi
    exact this
  · intro k r hr hrne s hs hmem
    obtain ⟨p, hp, i, hi, hski, hke⟩ := inv_sound hInv' k (subKey uid r s) hmem
    obtain ⟨hrp, hsp, _⟩ := hInv'.1 p hp
    obtain ⟨hpu, hpr, _⟩ := subKey_inj (regions_colon_free _ hr)
      (sources_colon_free _ hs) (regions_colon_free _ hrp)
      (sources_colon_free _ (hsp i hi)) hke
    have hpe : p = (uid, { u with region := normalizeRegion region }) :=
      pair_eq_of_mem_nodup hInv'.2.1 hp (mapGet_mem hm') hpu.symm
    apply hrne
    rw [hpr, hpe]


/-- Witness for C2 at a concrete one-item store and the region update to
lowercase `tr`. -/
theorem c2_region_change_consistency_witness :
    Inv addOneDb ∧
    mapGet addOneDb.wishlist (str "u") =
      some ⟨str "EU", [⟨some (str "sk"), str "Unknown Skin", str "store"⟩]⟩ ∧
    ((∀ i ∈ (⟨str "EU", [⟨some (str "sk"), str "Unknown Skin", str "store"⟩]⟩ :
        UserData).items,
      subKey (str "u") (normalizeRegion (some (str "tr"))) i.source ∈
        SubAt (P0.setRegion addOneDb (str "u") (some (str "tr"))).2 i.skinId) ∧
    (∀ k : Option Str, ∀ r ∈ regions, r ≠ normalizeRegion (some (str "tr")) →
      ∀ s ∈ validSources,
        subKey (str "u") r s ∉ SubAt (P0.setRegion addOneDb (str "u") (some (str "tr"))).2 k)) :=
  ⟨by decide, by decide,
    c2_region_change_consistency addOneDb (str "u")
      ⟨str "EU", [⟨some (str "sk"), str "Unknown Skin", str "store"⟩]⟩
      (some (str "tr")) (by decide) (by decide)⟩


/-! ### Claim C3: idempotence of AddItem -/

theorem countP_matching_le_one {l : List Item} (hd : itemsDistinct l)
    (sk : Option Str) (srcv : Str) :
    l.countP (fun i => decide (i.skinId = sk) && decide (i.source = srcv)) ≤ 1 := by
  induction l with
  | nil => simp
  | cons a l ih =>
    unfold itemsDistinct at hd
    rw [List.pairwise_cons] at hd
    rw [List.countP_cons]
    by_cases hma : (decide (a.skinId = sk) && decide (a.source = srcv)) = true
    · rw [Bool.and_eq_true, decide_eq_true_eq, decide_eq_true_eq] at hma
      have hz : l.countP (fun i => decide (i.skinId = sk) && decide (i.source = srcv)) = 0 := by
        rw [List.countP_eq_zero]
        intro j hj hjm
        rw [Bool.and_eq_true, decide_eq_true_eq, decide_eq_true_eq] at hjm
        rcases hd.1 j hj with hne | hne
        · exact hne (hma.1.trans hjm.1.symm)
        · exact hne (hma.2.trans hjm.2.symm)
      simp [hz, hma.1, hma.2]
    · have hih := ih (by unfold itemsDistinct; exact hd.2)
      simp only [hma, if_false]
      simpa using hih

/-- After any `part_000` add, the user exists, keeps the region the store
resolved for them, owns a matching item, and the returned topic is the
canonical one for (current region, normalized source, skinId). -/
theorem addItem_user_fact (db : Db) (uid : Str) (sk : Option Str) (nm src : Option Str) :
    ∃ u1, mapGet (P0.addItem db uid sk nm src).2.wishlist uid = some u1 ∧
      u1.region = userRegion db uid ∧
      (∃ i ∈ u1.items, i.skinId = sk ∧ i.source = P0.normalizeSource src) ∧
      (P0.addItem db uid sk nm src).1.topic =
        generateTopicName (userRegion db uid) (P0.normalizeSource src) (renderOpt sk) := by
  cases hm : mapGet db.wishlist uid with
  | some u =>
    rw [addItem_eq_found hm sk nm src]
    have hur : userRegion db uid = u.region := by unfold userRegion; rw [hm]
    by_cases hex : u.items.any (fun i => decide (i.skinId = sk) &&
        decide (i.source = P0.normalizeSource src)) = true
    · rw [if_pos hex]
      refine ⟨u, hm, hur.symm, ?_, ?_⟩
      · obtain ⟨i, hi, hmatch⟩ := List.any_eq_true.mp hex
        rw [Bool.and_eq_true, decide_eq_true_eq, decide_eq_true_eq] at hmatch
        exact ⟨i, hi, hmatch.1, hmatch.2⟩
      · simp [P0.AddResult.topic, hur]
    · rw [if_neg hex]
      refine ⟨_, mapGet_mapSet_self _ _ _, ?_, ?_, ?_⟩
      · rw [hur]
      · exact ⟨⟨sk, jsOr nm (str "Unknown Skin"), P0.normalizeSource src⟩,
          List.mem_append.mpr (Or.inr (List.mem_singleton.mpr rfl)), rfl, rfl⟩
      · simp [P0.AddResult.topic, hur]
  | none =>
    rw [addItem_eq_fresh hm sk nm src]
    have hur : userRegion db uid = str "EU" := by unfold userRegion; rw [hm]
    refine ⟨⟨str "EU", [⟨sk, jsOr nm (str "Unknown Skin"), P0.normalizeSource src⟩]⟩,
      ?_, ?_, ?_, ?_⟩
    · rw [mapSet_mapSet]
      exact mapGet_mapSet_self _ _ _
    · rw [hur]
    · exact ⟨⟨sk, jsOr nm (str "Unknown Skin"), P0.normalizeSource src⟩,
        List.mem_singleton.mpr rfl, rfl, rfl⟩
    · simp [P0.AddResult.topic, hur]

/-- Claim C3: re-adding the same (skinId, source) pair immediately after
an add leaves the store unchanged, answers the `already` response with the
same topic, and both the user's list and the reverse-index bucket hold
exactly one matching occurrence. -/
theorem c3_add_idempotent (db : Db) (uid : Str) (sk : Option Str) (nm nm2 src : Option Str)
    (h : Inv db) :
    (P0.addItem (P0.addItem db uid sk nm src).2 uid sk nm2 src).2 =
      (P0.addItem db uid sk nm src).2 ∧
    (P0.addItem (P0.addItem db uid sk nm src).2 uid sk nm2 src).1 =
      .already ((P0.addItem db uid sk nm src).1.topic) ∧
    (∃ u1, mapGet (P0.addItem db uid sk nm src).2.wishlist uid = some u1 ∧
      u1.items.countP (fun i => decide (i.skinId = sk) &&
        decide (i.source = P0.normalizeSource src)) = 1) ∧
    (SubAt (P0.addItem db uid sk nm src).2 sk).countP
      (fun e => decide (e = subKey uid
        (userRegion (P0.addItem db uid sk nm src).2 uid) (P0.normalizeSource src))) = 1 := by
  have hInv1 := inv_addItem db uid sk nm src h
  obtain ⟨u1, hm1, hr1, hitem, htop⟩ := addItem_user_fact db uid sk nm src
  obtain ⟨i1, hi1, hisk, hisrc⟩ := hitem
  have hex1 : u1.items.any (fun i => decide (i.skinId = sk) &&
      decide (i.source = P0.normalizeSource src)) = true :=
    List.any_eq_true.mpr ⟨i1, hi1, by simp [hisk, hisrc]⟩
  have h2 := addItem_eq_found hm1 sk nm2 src
  rw [if_pos hex1] at h2
  refine ⟨?_, ?_, ?_, ?_⟩
  · rw [h2]
  · rw [h2, htop, hr1]
  · refine ⟨u1, hm1, ?_⟩
    have hdist : itemsDistinct u1.items := (hInv1.1 (uid, u1) (mapGet_mem hm1)).2.2
    apply le_antisymm
    · exact countP_matching_le_one hdist sk (P0.normalizeSource src)
    · have hpos : 0 < u1.items.countP (fun i => decide (i.skinId = sk) &&
          decide (i.source = P0.normalizeSource src)) :=
        List.countP_pos_iff.mpr ⟨i1, hi1, by simp [hisk, hisrc]⟩
      omega
  · have hkey : subKey uid u1.region (P0.normalizeSource src) ∈
        SubAt (P0.addItem db uid sk nm src).2 i1.skinId := by
      have hc := hInv1.2.2.2.2.1 (uid, u1) (mapGet_mem hm1) i1 hi1
      rw [hisrc] at hc
      exact hc
    rw [hisk] at hkey
    have hur1 : userRegion (P0.addItem db uid sk nm src).2 uid = u1.region := by
      unfold userRegion
      rw [hm1]
    rw [hur1]
    exact countP_eq_one_of_nodup_mem (inv_bucket_nodup hInv1 sk) hkey

/-- Witness for C3 at the empty store. -/
theorem c3_add_idempotent_witness :
    Inv Db.empty ∧
    ((P0.addItem (P0.addItem Db.empty (str "u") (some (str "sk")) none none).2
        (str "u") (some (str "sk")) none none).2 =
      (P0.addItem Db.empty (str "u") (some (str "sk")) none none).2 ∧
    (P0.addItem (P0.addItem Db.empty (str "u") (some (str "sk")) none none).2
        (str "u") (some (str "sk")) none none).1 =
      .already ((P0.addItem Db.empty (str "u") (some (str "sk")) none none).1.topic) ∧
    (∃ u1, mapGet (P0.addItem Db.empty (str "u") (some (str "sk"))
        none none).2.wishlist (str "u") = some u1 ∧
      u1.items.countP (fun i => decide (i.skinId = some (str "sk")) &&
        decide (i.source = P0.normalizeSource none)) = 1) ∧
    (SubAt (P0.addItem Db.empty (str "u") (some (str "sk")) none none).2
        (some (str "sk"))).countP
      (fun e => decide (e = subKey (str "u")
        (userRegion (P0.addItem Db.empty (str "u") (some (str "sk")) none none).2 (str "u"))
        (P0.normalizeSource none))) = 1) :=
  ⟨by decide,
    c3_add_idempotent Db.empty (str "u") (some (str "sk")) none none none (by decide)⟩


/-! ### Claim C4: empty buckets are pruned -/

/-- Claim C4: a removal never leaves an empty reverse-index bucket behind;
in particular, once the last entry for a skin id is removed the reverse
index holds no bucket at all for it. -/
theorem c4_empty_bucket_pruning (db : Db) (uid skinId : Str) (src : Option Str)
    (h : ∀ q ∈ db.skinSubscriptions, q.2 ≠ []) :
    (∀ q ∈ (P0.removeItem db uid skinId src).2.skinSubscriptions, q.2 ≠ []) ∧
    (∀ b, mapGet (P0.removeItem db uid skinId src).2.skinSubscriptions (some skinId) =
      some b → b ≠ []) := by
  have hmain : ∀ q ∈ (P0.removeItem db uid skinId src).2.skinSubscriptions, q.2 ≠ [] := by
    cases hm : mapGet db.wishlist uid with
    | none =>
      rw [removeItem_eq_none hm]
      exact h
    | some u =>
      rw [removeItem_eq_found hm skinId src]
      by_cases hlen : (u.items.filter
          (keepItem skinId (src.getD (str "store")))).length = u.items.length
      · rw [if_pos hlen]
        exact h
      · rw [if_neg hlen]
        intro q hq
        simp only at hq
        cases hmb : mapGet db.skinSubscriptions (some skinId) with
        | none =>
          rw [subsRemove_eq_of_get_none hmb] at hq
          exact h q hq
        | some b =>
          rw [subsRemove_eq_of_get_some hmb] at hq
          by_cases hb : setDelete b (subKey uid u.region (src.getD (str "store"))) = []
          · rw [if_pos hb] at hq
            exact h q (mem_mapDelete.mp hq).1
          · rw [if_neg hb] at hq
            rcases mem_mapSet_weak hq with hold | hnew
            · exact h q hold
            · rw [hnew]
              exact hb
  exact ⟨hmain, fun b hb => hmain (some skinId, b) (mapGet_mem hb)⟩

/-- Witness for C4: removing the only item of `addOneDb` prunes the `sk`
bucket and leaves no empty residue. -/
theorem c4_empty_bucket_pruning_witness :
    (∀ q ∈ addOneDb.skinSubscriptions, q.2 ≠ []) ∧
    ((∀ q ∈ (P0.removeItem addOneDb (str "u") (str "sk") none).2.skinSubscriptions,
      q.2 ≠ []) ∧
    (∀ b, mapGet (P0.removeItem addOneDb (str "u")
        (str "sk") none).2.skinSubscriptions (some (str "sk")) = some b → b ≠ [])) :=
  ⟨by decide, c4_empty_bucket_pruning addOneDb (str "u") (str "sk") none (by decide)⟩


/-! ### Claim C10: GetUser topics align with items -/

/-- Claim C10: for a known user, the `topics` list of the wishlist view
has exactly the length of `items`, and position `k` carries the topic of
`items[k]` computed with the user's current region. -/
theorem c10_topics_match_items (db : Db) (uid : Str) (u : UserData)
    (hm : mapGet db.wishlist uid = some u) :
    (P0.getWishlist db uid).region = u.region ∧
    (P0.getWishlist db uid).topics.length = (P0.getWishlist db uid).items.length ∧
    (∀ k : Nat, (P0.getWishlist db uid).topics[k]? =
      ((P0.getWishlist db uid).items[k]?).map
        (fun i => generateTopicName u.region i.source (renderOpt i.skinId))) := by
  unfold P0.getWishlist
  rw [hm]
  refine ⟨rfl, by simp, ?_⟩
  intro k
  simp [List.getElem?_map]

/-- Witness for C10 on the one-item store. -/
theorem c10_topics_match_items_witness :
    mapGet addOneDb.wishlist (str "u") =
      some ⟨str "EU", [⟨some (str "sk"), str "Unknown Skin", str "store"⟩]⟩ ∧
    ((P0.getWishlist addOneDb (str "u")).region = str "EU" ∧
    (P0.getWishlist addOneDb (str "u")).topics.length =
      (P0.getWishlist addOneDb (str "u")).items.length ∧
    (∀ k : Nat, (P0.getWishlist addOneDb (str "u")).topics[k]? =
      ((P0.getWishlist addOneDb (str "u")).items[k]?).map
        (fun i => generateTopicName (str "EU") i.source (renderOpt i.skinId)))) :=
  ⟨by decide,
    c10_topics_match_items addOneDb (str "u")
      ⟨str "EU", [⟨some (str "sk"), str "Unknown Skin", str "store"⟩]⟩ (by decide)⟩


/-! ### Claim C5: topic round-trip through the worker query -/

theorem subRecordOf_subKey (skinId : Str) {u r s0 : Str}
    (hu : ':' ∉ u) (hr : ':' ∉ r) (hs : ':' ∉ s0) :
    P0.subRecordOf skinId (subKey u r s0) =
      ⟨some u, some r, some s0, generateTopicName r s0 skinId⟩ := by
  unfold P0.subRecordOf
  rw [jsSplit_subKey hu hr hs]
  rfl

theorem addItem_wishlist_keys (db : Db) (uid : Str) (sk : Option Str) (nm src : Option Str) :
    ∀ p ∈ (P0.addItem db uid sk nm src).2.wishlist, p.1 = uid ∨ p ∈ db.wishlist := by
  cases hm : mapGet db.wishlist uid with
  | some u =>
    rw [addItem_eq_found hm sk nm src]
    by_cases hex : u.items.any (fun i => decide (i.skinId = sk) &&
        decide (i.source = P0.normalizeSource src)) = true
    · rw [if_pos hex]
      intro p hp
      exact Or.inr hp
    · rw [if_neg hex]
      intro p hp
      rcases mem_mapSet_weak hp with hold | hnew
      · exact Or.inr hold
      · rw [hnew]
        exact Or.inl rfl
  | none =>
    rw [addItem_eq_fresh hm sk nm src]
    intro p hp
    simp only at hp
    rcases mem_mapSet_weak hp with hold | hnew
    · rcases mem_mapSet_weak hold with h2 | h2
      · exact Or.inr h2
      · rw [h2]
        exact Or.inl rfl
    · rw [hnew]
      exact Or.inl rfl

/-- Claim C5 (amended: user ids without `':'`, as the system-generated
`anon_<hex>` ids are): the topic returned when a tuple is recorded by
AddItem is exactly the topic `QueryBySkin` reconstructs from the stored
entry for that tuple, and every queried record that parses back to the
same user and source carries that very topic. -/
theorem c5_roundtrip (db : Db) (uid : Str) (s : Str) (nm src : Option Str)
    (h : Inv db) (hall : ∀ p ∈ db.wishlist, ':' ∉ p.1) (hu : ':' ∉ uid) :
    ((P0.addItem db uid (some s) nm src).1.topic =
      generateTopicName (userRegion db uid) (P0.normalizeSource src) s) ∧
    (∃ rec ∈ P0.queryBySkin (P0.addItem db uid (some s) nm src).2 s,
      rec = ⟨some uid, some (userRegion db uid), some (P0.normalizeSource src),
        generateTopicName (userRegion db uid) (P0.normalizeSource src) s⟩) ∧
    (∀ rec ∈ P0.queryBySkin (P0.addItem db uid (some s) nm src).2 s,
      rec.anonUserId = some uid → rec.source = some (P0.normalizeSource src) →
        rec.topic = generateTopicName (userRegion db uid) (P0.normalizeSource src) s) := by
  have hInv1 := inv_addItem db uid (some s) nm src h
  obtain ⟨u1, hm1, hr1, ⟨i1, hi1, hisk, hisrc⟩, htop⟩ := addItem_user_fact db uid (some s) nm src
  have hr1mem : u1.region ∈ regions := (hInv1.1 (uid, u1) (mapGet_mem hm1)).1
  have hrcf : ':' ∉ u1.region := regions_colon_free _ hr1mem
  have hscf : ':' ∉ P0.normalizeSource src := sources_colon_free _ (normalizeSource_mem src)
  have hkey : subKey uid u1.region (P0.normalizeSource src) ∈
      SubAt (P0.addItem db uid (some s) nm src).2 (some s) := by
    have hc := hInv1.2.2.2.2.1 (uid, u1) (mapGet_mem hm1) i1 hi1
    rw [hisrc] at hc
    rw [hisk] at hc
    exact hc
  cases hmb : mapGet (P0.addItem db uid (some s) nm src).2.skinSubscriptions (some s) with
  | none =>
    exfalso
    unfold SubAt at hkey
    rw [hmb] at hkey
    exact absurd hkey (List.not_mem_nil _)
  | some b =>
    have hkb : subKey uid u1.region (P0.normalizeSource src) ∈ b := by
      unfold SubAt at hkey
      rw [hmb] at hkey
      exact hkey
    have hbne : ¬ b = [] := by
      intro hbe
      rw [hbe] at hkb
      exact absurd hkb (List.not_mem_nil _)
    have hquery : P0.queryBySkin (P0.addItem db uid (some s) nm src).2 s =
        b.map (P0.subRecordOf s) := by
      unfold P0.queryBySkin
      rw [hmb]
      show (if b = [] then [] else List.map (P0.subRecordOf s) b) =
        List.map (P0.subRecordOf s) b
      rw [if_neg hbne]
    have hkeysfact := addItem_wishlist_keys db uid (some s) nm src
    refine ⟨htop, ?_, ?_⟩
    · refine ⟨P0.subRecordOf s (subKey uid u1.region (P0.normalizeSource src)), ?_, ?_⟩
      · rw [hquery]
        exact List.mem_map_of_mem _ hkb
      · rw [subRecordOf_subKey s hu hrcf hscf, hr1]
    · intro rec hrec ha hsr
      rw [hquery] at hrec
      obtain ⟨e, he, hrece⟩ := List.mem_map.mp hrec
      have heS : e ∈ SubAt (P0.addItem db uid (some s) nm src).2 (some s) := by
        unfold SubAt
        rw [hmb]
        exact he
      obtain ⟨p, hp, i, hi, hski2, hke⟩ := inv_sound hInv1 (some s) e heS
      have hpcf : ':' ∉ p.1 := by
        rcases hkeysfact p hp with hpu | hpold
        · rw [hpu]
          exact hu
        · exact hall p hpold
      obtain ⟨hpreg, hpsrc, _⟩ := hInv1.1 p hp
      have hrece' : rec = ⟨some p.1, some p.2.region, some i.source,
          generateTopicName p.2.region i.source s⟩ := by
        rw [← hrece, hke, subRecordOf_subKey s hpcf (regions_colon_free _ hpreg)
          (sources_colon_free _ (hpsrc i hi))]
      rw [hrece'] at ha hsr ⊢
      simp only at ha hsr ⊢
      injection ha with ha
      injection hsr with hsr
      have hpe : p = (uid, u1) := pair_eq_of_mem_nodup hInv1.2.1 hp (mapGet_mem hm1) ha
      rw [hsr, hpe, hr1]

/-- Witness for C5 at the empty store (colon-free id `u`). -/
theorem c5_roundtrip_witness :
    Inv Db.empty ∧ (∀ p ∈ Db.empty.wishlist, ':' ∉ p.1) ∧ ':' ∉ str "u" ∧
    (((P0.addItem Db.empty (str "u") (some (str "sk")) none none).1.topic =
      generateTopicName (userRegion Db.empty (str "u")) (P0.normalizeSource none)
        (str "sk")) ∧
    (∃ rec ∈ P0.queryBySkin (P0.addItem Db.empty (str "u")
        (some (str "sk")) none none).2 (str "sk"),
      rec = ⟨some (str "u"), some (userRegion Db.empty (str "u")),
        some (P0.normalizeSource none),
        generateTopicName (userRegion Db.empty (str "u")) (P0.normalizeSource none)
          (str "sk")⟩) ∧
    (∀ rec ∈ P0.queryBySkin (P0.addItem Db.empty (str "u")
        (some (str "sk")) none none).2 (str "sk"),
      rec.anonUserId = some (str "u") → rec.source = some (P0.normalizeSource none) →
        rec.topic = generateTopicName (userRegion Db.empty (str "u"))
          (P0.normalizeSource none) (str "sk"))) :=
  ⟨by decide, by decide, by decide,
    c5_roundtrip Db.empty (str "u") (str "sk") none none (by decide) (by decide) (by decide)⟩

/-- Counterexample to C5 as stated: an anonUserId containing `':'` (a
legal path segment) makes the worker query parse the composite key at the
wrong separators, so the reconstructed topic differs from the one AddItem
returned for the same recorded tuple. -/
theorem c5_divergence_counterexample :
    (P0.addItem Db.empty (str "a:b") (some (str "S")) none none).1.topic =
      str "valohub/EU/store/S" ∧
    (P0.queryBySkin (P0.addItem Db.empty (str "a:b")
        (some (str "S")) none none).2 (str "S")).map P0.SubRecord.topic =
      [str "valohub/b/EU/S"] ∧
    str "valohub/b/EU/S" ≠ str "valohub/EU/store/S" := by
  decide


/-! ### Claim C9: the active-skins aggregation -/

theorem activeStep_eq (filt : Option Str) (k0 : Option Str)
    (acc : List (Option Str × List (Option Str))) (e : Str) :
    P0.activeStep filt k0 acc e =
      if P0.activePass filt (jsSplit e ':') then
        mapSet acc k0 (setAdd ((mapGet acc k0).getD []) ((jsSplit e ':').get? 1))
      else acc := rfl

theorem activeStep_mem (filt : Option Str) (k0 : Option Str)
    (acc : List (Option Str × List (Option Str))) (e : Str) (k' : Option Str)
    (r? : Option Str) :
    (∃ rs, mapGet (P0.activeStep filt k0 acc e) k' = some rs ∧ r? ∈ rs) ↔
      ((∃ rs, mapGet acc k' = some rs ∧ r? ∈ rs) ∨
        (k' = k0 ∧ P0.activePass filt (jsSplit e ':') = true ∧
          (jsSplit e ':').get? 1 = r?)) := by
  rw [activeStep_eq]
  by_cases hp : P0.activePass filt (jsSplit e ':') = true
  · rw [if_pos hp]
    by_cases hk : k' = k0
    · subst hk
      rw [mapGet_mapSet_self]
      constructor
      · rintro ⟨rs, hrs, hmem⟩
        injection hrs with hrs
        rw [← hrs] at hmem
        rcases mem_setAdd.mp hmem with hm | hm
        · left
          cases hacc : mapGet acc k' with
          | none =>
            rw [hacc] at hm
            simp at hm
          | some rs0 =>
            rw [hacc] at hm
            exact ⟨rs0, rfl, by simpa using hm⟩
        · right
          exact ⟨rfl, hp, hm.symm⟩
      · rintro (⟨rs, hrs, hmem⟩ | ⟨_, _, hget⟩)
        · refine ⟨_, rfl, ?_⟩
          apply mem_setAdd.mpr
          left
          rw [hrs]
          exact hmem
        · exact ⟨_, rfl, mem_setAdd.mpr (Or.inr hget.symm)⟩
    · rw [mapGet_mapSet_ne _ _ hk]
      simp [hk]
  · rw [if_neg hp]
    simp [hp]

theorem activeFold_bucket (filt : Option Str) (k0 : Option Str) :
    ∀ (b : List Str) (acc : List (Option Str × List (Option Str))) (k' : Option Str)
      (r? : Option Str),
      (∃ rs, mapGet (b.foldl (P0.activeStep filt k0) acc) k' = some rs ∧ r? ∈ rs) ↔
        ((∃ rs, mapGet acc k' = some rs ∧ r? ∈ rs) ∨
          (k' = k0 ∧ ∃ e ∈ b, P0.activePass filt (jsSplit e ':') = true ∧
            (jsSplit e ':').get? 1 = r?)) := by
  intro b
  induction b with
  | nil =>
    intro acc k' r?
    simp
  | cons e b ih =>
    intro acc k' r?
    simp only [List.foldl_cons]
    rw [ih (P0.activeStep filt k0 acc e) k' r?, activeStep_mem]
    constructor
    · rintro ((hacc | ⟨hk, hpass, hget⟩) | ⟨hk, e2, he2, hp2, hg2⟩)
      · exact Or.inl hacc
      · exact Or.inr ⟨hk, e, List.mem_cons_self e b, hpass, hget⟩
      · exact Or.inr ⟨hk, e2, List.mem_cons_of_mem _ he2, hp2, hg2⟩
    · rintro (hacc | ⟨hk, e2, he2, hp2, hg2⟩)
      · exact Or.inl (Or.inl hacc)
      · rcases List.mem_cons.mp he2 with he | he
        · rw [he] at hp2 hg2
          exact Or.inl (Or.inr ⟨hk, hp2, hg2⟩)
        · exact Or.inr ⟨hk, e2, he, hp2, hg2⟩

theorem activeFold_bucket_keys (filt : Option Str) (k0 : Option Str) :
    ∀ (b : List Str) (acc : List (Option Str × List (Option Str))),
      (acc.map Prod.fst).Nodup →
      ((b.foldl (P0.activeStep filt k0) acc).map Prod.fst).Nodup := by
  intro b
  induction b with
  | nil =>
    intro acc h
    simpa
  | cons e b ih =>
    intro acc h
    simp only [List.foldl_cons]
    apply ih
    rw [activeStep_eq]
    by_cases hp : P0.activePass filt (jsSplit e ':') = true
    · rw [if_pos hp]
      exact mapSet_keys_nodup h _ _
    · rw [if_neg hp]
      exact h

theorem activeFold_pairs (filt : Option Str) :
    ∀ (l : List (Option Str × List Str)) (acc : List (Option Str × List (Option Str))),
      (acc.map Prod.fst).Nodup →
      ((l.foldl (fun a p => p.2.foldl (P0.activeStep filt p.1) a) acc).map Prod.fst).Nodup ∧
      (∀ (k' r? : Option Str),
        (∃ rs, mapGet (l.foldl (fun a p => p.2.foldl (P0.activeStep filt p.1) a) acc) k' =
            some rs ∧ r? ∈ rs) ↔
          ((∃ rs, mapGet acc k' = some rs ∧ r? ∈ rs) ∨
            (∃ q ∈ l, q.1 = k' ∧ ∃ e ∈ q.2,
              P0.activePass filt (jsSplit e ':') = true ∧
              (jsSplit e ':').get? 1 = r?))) := by
  intro l
  induction l with
  | nil =>
    intro acc h
    refine ⟨by simpa, ?_⟩
    intro k' r?
    simp
  | cons q l ih =>
    intro acc h
    simp only [List.foldl_cons]
    have hnd1 : ((q.2.foldl (P0.activeStep filt q.1) acc).map Prod.fst).Nodup :=
      activeFold_bucket_keys filt q.1 q.2 acc h
    obtain ⟨hnd2, hchar2⟩ := ih (q.2.foldl (P0.activeStep filt q.1) acc) hnd1
    refine ⟨hnd2, ?_⟩
    intro k' r?
    rw [hchar2 k' r?, activeFold_bucket filt q.1 q.2 acc k' r?]
    constructor
    · rintro ((hacc | ⟨hk, hex⟩) | ⟨q2, hq2, hqk, hex⟩)
      · exact Or.inl hacc
      · exact Or.inr ⟨q, List.mem_cons_self q l, hk.symm, hex⟩
      · exact Or.inr ⟨q2, List.mem_cons_of_mem _ hq2, hqk, hex⟩
    · rintro (hacc | ⟨q2, hq2, hqk, hex⟩)
      · exact Or.inl (Or.inl hacc)
      · rcases List.mem_cons.mp hq2 with he | he
        · rw [he] at hqk hex
          exact Or.inl (Or.inr ⟨hqk.symm, hex⟩)
        · exact Or.inr ⟨q2, he, hqk, hex⟩


/-- Claim C9 (amended: user ids without `':'` and a non-empty filter, for
the `part_000` implementation): the active-skins aggregation has one
record per skin key, and region `r` appears in the record for `k` exactly
when some user with region `r` has a live item with skin id `k` whose
source passes the optional filter. -/
theorem c9_active_skins (db : Db) (filt : Option Str) (h : Inv db)
    (hall : ∀ p ∈ db.wishlist, ':' ∉ p.1)
    (hfilt : ∀ f, filt = some f → f ≠ []) :
    ((P0.activeSkins db filt).map Prod.fst).Nodup ∧
    (∀ (k : Option Str) (r : Str),
      (∃ rs, mapGet (P0.activeSkins db filt) k = some rs ∧ some r ∈ rs) ↔
        (∃ p ∈ db.wishlist, ∃ i ∈ p.2.items, i.skinId = k ∧ p.2.region = r ∧
          (∀ f, filt = some f → i.source = f))) := by
  unfold P0.activeSkins
  obtain ⟨hnd, hchar⟩ := activeFold_pairs filt db.skinSubscriptions [] (by simp)
  refine ⟨hnd, ?_⟩
  intro k r
  rw [hchar k (some r)]
  constructor
  · rintro (⟨rs, hrs, _⟩ | ⟨q, hq, hqk, e, he, hpass, hget⟩)
    · simp [mapGet] at hrs
    · have heS : e ∈ SubAt db q.1 := by
        unfold SubAt
        rw [mapGet_eq_of_mem_nodup h.2.2.1 hq]
        exact he
      obtain ⟨p, hp, i, hi, hski, hke⟩ := inv_sound h q.1 e heS
      obtain ⟨hpreg, hpsrc, _⟩ := h.1 p hp
      have hsplitE : jsSplit e ':' = [p.1, p.2.region, i.source] := by
        rw [hke]
        exact jsSplit_subKey (hall p hp) (regions_colon_free _ hpreg)
          (sources_colon_free _ (hpsrc i hi))
      rw [hsplitE] at hpass hget
      have hget2 : some p.2.region = some r := hget
      injection hget2 with hget2
      refine ⟨p, hp, i, hi, ?_, hget2, ?_⟩
      · rw [hski, hqk]
      · intro f hf
        rw [hf] at hpass
        unfold P0.activePass at hpass
        have hpass1 : (if f = [] then true
            else decide ([p.1, p.2.region, i.source].get? 2 = some f)) = true := hpass
        rw [if_neg (hfilt f hf)] at hpass1
        rw [decide_eq_true_eq] at hpass1
        have hpass2 : some i.source = some f := hpass1
        injection hpass2 with hpass2
  · rintro ⟨p, hp, i, hi, hski, hpreg2, hsrcf⟩
    right
    obtain ⟨hpreg, hpsrc, _⟩ := h.1 p hp
    have he : subKey p.1 p.2.region i.source ∈ SubAt db i.skinId :=
      h.2.2.2.2.1 p hp i hi
    cases hmb : mapGet db.skinSubscriptions i.skinId with
    | none =>
      exfalso
      unfold SubAt at he
      rw [hmb] at he
      exact absurd he (List.not_mem_nil _)
    | some b =>
      have heb : subKey p.1 p.2.region i.source ∈ b := by
        unfold SubAt at he
        rw [hmb] at he
        exact he
      have hsplitE : jsSplit (subKey p.1 p.2.region i.source) ':' =
          [p.1, p.2.region, i.source] :=
        jsSplit_subKey (hall p hp) (regions_colon_free _ hpreg)
          (sources_colon_free _ (hpsrc i hi))
      refine ⟨(i.skinId, b), mapGet_mem hmb, hski,
        subKey p.1 p.2.region i.source, heb, ?_, ?_⟩
      · rw [hsplitE]
        unfold P0.activePass
        cases hfe : filt with
        | none => rfl
        | some f =>
          show (if f = [] then true
            else decide ([p.1, p.2.region, i.source].get? 2 = some f)) = true
          rw [if_neg (hfilt f hfe)]
          rw [decide_eq_true_eq]
          show some i.source = some f
          rw [hsrcf f hfe]
      · rw [hsplitE]
        show some p.2.region = some r
        rw [hpreg2]

/-- Witness for C9 on the one-item store with no filter supplied. -/
theorem c9_active_skins_witness :
    Inv addOneDb ∧ (∀ p ∈ addOneDb.wishlist, ':' ∉ p.1) ∧
    (((P0.activeSkins addOneDb none).map Prod.fst).Nodup ∧
    (∀ (k : Option Str) (r : Str),
      (∃ rs, mapGet (P0.activeSkins addOneDb none) k = some rs ∧ some r ∈ rs) ↔
        (∃ p ∈ addOneDb.wishlist, ∃ i ∈ p.2.items, i.skinId = k ∧ p.2.region = r ∧
          (∀ f, (none : Option Str) = some f → i.source = f)))) :=
  ⟨by decide, by decide,
    c9_active_skins addOneDb none (by decide) (by decide)
      (fun f hf => absurd hf (by simp))⟩

/-- Counterexample to C9 as stated: (a) with a user id containing `':'`
the `part_000` aggregation reports the parsed middle component `b` as a
region although every user's region is `EU`; (b) the `server.js` handler
ignores the supplied source filter altogether, so a store-sourced
subscription still contributes under the filter `night`. -/
theorem c9_counterexample :
    P0.activeSkins (P0.addItem Db.empty (str "a:b") (some (str "S")) none none).2 none =
      [(some (str "S"), [some (str "b")])] ∧
    (∀ p ∈ (P0.addItem Db.empty (str "a:b") (some (str "S")) none none).2.wishlist,
      p.2.region = str "EU") ∧
    some (str "b") ≠ some (str "EU") ∧
    SJ.activeSkins (SJ.addItem Db.empty (str "u") (some (str "S")) none
        (some (str "store"))).2 (some (str "night")) =
      [(some (str "S"), [some (str "EU")])] := by
  decide


/-! ### Claims C6, C7, C8: divergences between the two route variants -/

/-- Claim C6 failing evaluation: the `server.js` add route stores the raw
client source `foo` in the item and in the reverse-index key and returns
the raw topic `valohub/EU/foo/sk`, while the `part_000` route normalizes
the same request to `store`. -/
theorem c6_server_skips_source_normalization :
    (SJ.addItem Db.empty (str "u") (some (str "sk")) none (some (str "foo"))).1 =
      .ok (str "valohub/EU/foo/sk") ∧
    mapGet (SJ.addItem Db.empty (str "u") (some (str "sk")) none
        (some (str "foo"))).2.wishlist (str "u") =
      some ⟨str "EU", [⟨some (str "sk"), str "Unknown", str "foo"⟩]⟩ ∧
    SubAt (SJ.addItem Db.empty (str "u") (some (str "sk")) none
        (some (str "foo"))).2 (some (str "sk")) = [str "u:EU:foo"] ∧
    str "foo" ∉ validSources ∧
    (P0.addItem Db.empty (str "u") (some (str "sk")) none (some (str "foo"))).1 =
      .added ⟨some (str "sk"), str "Unknown Skin", str "store"⟩
        (str "valohub/EU/store/sk") := by
  decide

/-- Claim C7 failing evaluation: the `part_000` add route accepts a
request without `skinId`: it auto-creates the user, appends an item whose
`skinId` is `undefined`, indexes it under the `undefined` bucket key and
answers success with topic `valohub/EU/store/undefined`, while the
`server.js` route rejects the same request with 400 and leaves the store
untouched. -/
theorem c7_part000_accepts_missing_skinId :
    (P0.addItem Db.empty (str "u") none none none).1 =
      .added ⟨none, str "Unknown Skin", str "store"⟩ (str "valohub/EU/store/undefined") ∧
    mapGet (P0.addItem Db.empty (str "u") none none none).2.wishlist (str "u") =
      some ⟨str "EU", [⟨none, str "Unknown Skin", str "store"⟩]⟩ ∧
    SubAt (P0.addItem Db.empty (str "u") none none none).2 none = [str "u:EU:store"] ∧
    (P0.addItem Db.empty (str "u") none none none).2 ≠ Db.empty ∧
    SJ.addItem Db.empty (str "u") none none none = (.badRequest, Db.empty) := by
  decide

/-- Claim C8 failing evaluation: in `sjNoMatchDb`, user `a` exists but has
no item matching (`S`, `NA:store`).  The `server.js` delete route still
answers the bare success result (the same shape a real removal gets) and,
because the computed composite key collides with user `a:EU`'s entry,
deletes that entry and prunes the bucket — mutating state on a no-match
removal.  The `part_000` route on the same store answers the distinct
`notFoundItem` result and changes nothing. -/
theorem c8_server_remove_lacks_distinct_result_and_mutates :
    mapGet sjNoMatchDb.wishlist (str "a") =
      some ⟨str "EU", [⟨some (str "T"), str "Unknown", str "store"⟩]⟩ ∧
    SubAt sjNoMatchDb (some (str "S")) = [str "a:EU:NA:store"] ∧
    (SJ.removeItem sjNoMatchDb (str "a") (str "S") (some (str "NA:store"))).1 =
      .ok ∧
    (SJ.removeItem sjNoMatchDb (str "a:EU") (str "S") (some (str "store"))).1 =
      .ok ∧
    mapGet (SJ.removeItem sjNoMatchDb (str "a") (str "S")
        (some (str "NA:store"))).2.skinSubscriptions (some (str "S")) = none ∧
    mapGet (SJ.removeItem sjNoMatchDb (str "a") (str "S")
        (some (str "NA:store"))).2.wishlist (str "a") =
      some ⟨str "EU", [⟨some (str "T"), str "Unknown", str "store"⟩]⟩ ∧
    (P0.removeItem sjNoMatchDb (str "a") (str "S") (some (str "NA:store"))).1 =
      .notFoundItem ∧
    (P0.removeItem sjNoMatchDb (str "a") (str "S") (some (str "NA:store"))).2 =
      sjNoMatchDb := by
  decide

end Valo
